import Mathlib

/-!
Sound Keeper: the mode resolver of `Main.cpp`.

A shallow embedding of `ParseStreamArgs` and `ParseMode` and of the C library
routines they call, followed by the properties of the resolver.

Conventions of the embedding.

* A C string is the list of its characters before the terminating NUL; a
  `char*` cursor into it is the list of the characters that remain.
* A `double` is modelled by `Double`: a finite value is the exact rational it
  denotes (rounding to 53 bits and overflow are not modelled), and the two
  infinities and NaN are kept because `strtod` can return them.
* `CSoundKeeper` is mutated in place by the source; here every operation takes
  the object and returns the updated one.
-/

namespace SoundKeeper

/-! ## Data model -/

/-- Modelled from the spec: the device tag of `CSoundKeeper.hpp`, which is not
among the sources: one of None, Primary, All, Analog, Digital. -/
inductive KeepDeviceType where
  | None
  | Primary
  | All
  | Analog
  | Digital
  deriving DecidableEq, Repr

/-- Modelled from the spec: the stream tag of `CSoundKeeper.hpp`, which is not
among the sources: one of Zero, Fluctuate, Sine, WhiteNoise. -/
inductive KeepStreamType where
  | Zero
  | Fluctuate
  | Sine
  | WhiteNoise
  deriving DecidableEq, Repr

/-- Values of the C type `double`: a finite value (as an exact rational), an
infinity with its sign (`true` is negative), or NaN. -/
inductive Double where
  | fin (q : ℚ)
  | inf (neg : Bool)
  | nan
  deriving DecidableEq

namespace Double

/-- The comparison `a < b` of two doubles; false as soon as one is NaN. -/
def lt : Double → Double → Bool
  | fin a, fin b => decide (a < b)
  | fin _, inf neg => !neg
  | inf neg, fin _ => neg
  | inf a, inf b => a && !b
  | nan, _ => false
  | fin _, nan => false
  | inf _, nan => false

/-- The negation `-a`. -/
def neg : Double → Double
  | fin q => fin (-q)
  | inf s => inf (!s)
  | nan => nan

/-- The quotient `a / b` (signed zeros are not distinguished). -/
def div : Double → Double → Double
  | nan, _ => nan
  | fin _, nan => nan
  | inf _, nan => nan
  | fin a, fin b =>
      if b = 0 then (if a = 0 then nan else inf (decide (a < 0))) else fin (a / b)
  | fin _, inf _ => fin 0
  | inf s, fin b => inf (s != decide (b < 0))
  | inf _, inf _ => nan

end Double

/-- The C library `fabs`. -/
def fabs : Double → Double
  | Double.fin q => Double.fin |q|
  | Double.inf _ => Double.inf false
  | Double.nan => Double.nan

/-- The C++ `std::min(a, b)`, which is `(b < a) ? b : a`. -/
def stdMin (a b : Double) : Double :=
  if Double.lt b a then b else a

/-- Modelled from the spec: the configuration held by `CSoundKeeper`
(`CSoundKeeper.hpp` is not among the sources): the device tag, the stream tag
and the five stream parameters. -/
structure CSoundKeeper where
  deviceType : KeepDeviceType
  streamType : KeepStreamType
  frequency : Double
  amplitude : Double
  fading : Double
  periodicPlaying : Double
  periodicWaiting : Double
  deriving DecidableEq

namespace CSoundKeeper

/-- Modelled from the spec: the setter of the device tag (`CSoundKeeper.hpp` is
not among the sources); it overwrites that field only. -/
def SetDeviceType (k : CSoundKeeper) (d : KeepDeviceType) : CSoundKeeper :=
  { k with deviceType := d }

/-- Modelled from the spec: the setter of the stream tag (`CSoundKeeper.hpp` is
not among the sources); it overwrites that field only. -/
def SetStreamType (k : CSoundKeeper) (s : KeepStreamType) : CSoundKeeper :=
  { k with streamType := s }

/-- Modelled from the spec: the setter of the frequency (`CSoundKeeper.hpp` is
not among the sources); it overwrites that field only. -/
def SetFrequency (k : CSoundKeeper) (v : Double) : CSoundKeeper :=
  { k with frequency := v }

/-- Modelled from the spec: the setter of the amplitude (`CSoundKeeper.hpp` is
not among the sources); it overwrites that field only. -/
def SetAmplitude (k : CSoundKeeper) (v : Double) : CSoundKeeper :=
  { k with amplitude := v }

/-- Modelled from the spec: the setter of the fading time (`CSoundKeeper.hpp`
is not among the sources); it overwrites that field only. -/
def SetFading (k : CSoundKeeper) (v : Double) : CSoundKeeper :=
  { k with fading := v }

/-- Modelled from the spec: the setter of the periodic playing time
(`CSoundKeeper.hpp` is not among the sources); it overwrites that field only. -/
def SetPeriodicPlaying (k : CSoundKeeper) (v : Double) : CSoundKeeper :=
  { k with periodicPlaying := v }

/-- Modelled from the spec: the setter of the periodic waiting time
(`CSoundKeeper.hpp` is not among the sources); it overwrites that field only. -/
def SetPeriodicWaiting (k : CSoundKeeper) (v : Double) : CSoundKeeper :=
  { k with periodicWaiting := v }

end CSoundKeeper

/-! ## The C library routines used by the resolver -/

/-- The Windows constant `MAX_PATH`. -/
def MAX_PATH : Nat := 260

/-- The C library `isspace` in the "C" locale: space, and the controls 9 to 13. -/
def isspace (c : Char) : Bool :=
  c = ' ' || (9 ≤ c.toNat && c.toNat ≤ 13)

/-- The C library `isxdigit`. -/
def isxdigit (c : Char) : Bool :=
  c.isDigit || ( 'a' ≤ c && c ≤ 'f') || ( 'A' ≤ c && c ≤ 'F')

/-- The value of a decimal digit. -/
def digitVal (c : Char) : Nat := c.toNat - 48

/-- The value of a hexadecimal digit. -/
def hexVal (c : Char) : Nat :=
  if c.isDigit then c.toNat - 48
  else if 'a' ≤ c ∧ c ≤ 'f' then c.toNat - 87
  else c.toNat - 55

/-- The number written by a string of decimal digits. -/
def natOfDigits (ds : List Char) : Nat :=
  ds.foldl (fun n c => 10 * n + digitVal c) 0

/-- The number written by a string of hexadecimal digits. -/
def natOfHex (ds : List Char) : Nat :=
  ds.foldl (fun n c => 16 * n + hexVal c) 0

/-- An optional sign at the cursor: whether it is a minus, and the cursor after it. -/
def readSign : List Char → Bool × List Char
  | '-' :: r => (true, r)
  | '+' :: r => (false, r)
  | s => (false, s)

/-- The exponent part of a number: the marker `m` (in either case), an optional
sign and at least one digit. Without a digit nothing is consumed and the
exponent is 0. -/
def readExponent (m : Char) (s : List Char) : Int × List Char :=
  match s with
  | [] => (0, s)
  | c :: r =>
      if c.toLower = m then
        let sg := readSign r
        let ds := sg.2.takeWhile Char.isDigit
        if ds = [] then (0, s)
        else ((if sg.1 then -(natOfDigits ds : Int) else (natOfDigits ds : Int)),
              sg.2.dropWhile Char.isDigit)
      else (0, s)

/-- The digits before and after an optional radix point, with the cursor after
them; `isD` says which characters are digits. -/
def readMantissa (isD : Char → Bool) (s : List Char) :
    List Char × List Char × List Char :=
  let ip := s.takeWhile isD
  match s.dropWhile isD with
  | '.' :: r => (ip, r.takeWhile isD, r.dropWhile isD)
  | r1 => (ip, [], r1)

/-- The decimal form accepted by `strtod`: digits with an optional radix point
(at least one digit in all), then an optional exponent. -/
def parseDecimal (s : List Char) : Option (Double × List Char) :=
  let m := readMantissa Char.isDigit s
  if m.1 = [] ∧ m.2.1 = [] then none
  else
    let e := readExponent 'e' m.2.2
    some (Double.fin ((natOfDigits (m.1 ++ m.2.1) : ℚ) / (10 : ℚ) ^ m.2.1.length
            * (10 : ℚ) ^ e.1), e.2)

/-- The hexadecimal form accepted by `strtod`: `0x`, hexadecimal digits with an
optional radix point (at least one digit in all), then an optional binary
exponent. -/
def parseHex (s : List Char) : Option (Double × List Char) :=
  match s with
  | '0' :: x :: r =>
      if x.toLower = 'x' then
        let m := readMantissa isxdigit r
        if m.1 = [] ∧ m.2.1 = [] then none
        else
          let e := readExponent 'p' m.2.2
          some (Double.fin ((natOfHex (m.1 ++ m.2.1) : ℚ) / (16 : ℚ) ^ m.2.1.length
                  * (2 : ℚ) ^ e.1), e.2)
      else none
  | _ => none

/-- The characters allowed between the parentheses of `nan(...)`. -/
def isNanChar (c : Char) : Bool :=
  c.isAlphanum || c = '_'

/-- The special forms accepted by `strtod`, in either case: `infinity`, `inf`,
`nan` and `nan(...)`. -/
def parseSpecial (s : List Char) : Option (Double × List Char) :=
  let l := s.map Char.toLower
  if [ 'i', 'n', 'f', 'i', 'n', 'i', 't', 'y'].isPrefixOf l then
    some (Double.inf false, s.drop 8)
  else if [ 'i', 'n', 'f'].isPrefixOf l then
    some (Double.inf false, s.drop 3)
  else if [ 'n', 'a', 'n'].isPrefixOf l then
    match s.drop 3 with
    | '(' :: r =>
        match r.dropWhile isNanChar with
        | ')' :: r2 => some (Double.nan, r2)
        | _ => some (Double.nan, s.drop 3)
    | _ => some (Double.nan, s.drop 3)
  else none

/-- The unsigned part of a number at the cursor, if there is one. -/
def parseMagnitude (s : List Char) : Option (Double × List Char) :=
  match parseSpecial s with
  | some r => some r
  | none =>
      match parseHex s with
      | some r => some r
      | none => parseDecimal s

/-- The C library `strtod(p, &p)`: skips white space, reads an optional sign and
the longest number; returns its value and the cursor after it. When no number
is there, the value is 0 and the cursor is where it was. -/
def strtod (s : List Char) : Double × List Char :=
  let sg := readSign (s.dropWhile isspace)
  match parseMagnitude sg.2 with
  | none => (Double.fin 0, s)
  | some r => ((if sg.1 then r.1.neg else r.1), r.2)

/-- The C library `strstr`: the cursor at the first occurrence of `needle`, if
there is one. -/
def strstr : List Char → List Char → Option (List Char)
  | [], needle => if needle = [] then some [] else none
  | c :: r, needle =>
      if needle.isPrefixOf (c :: r) then some (c :: r) else strstr r needle

/-- The C library `_strlwr` in the "C" locale: the letters A to Z become a to z. -/
def _strlwr (s : List Char) : List Char :=
  s.map Char.toLower

/-! ## `Main.cpp` -/

/-- How a call can end other than by returning. -/
inductive Fault where
  | invalidParameter
  | outOfFuel
  deriving DecidableEq, Repr

/-- The branch on `type` in the loop of `ParseStreamArgs` (lines 27 to 46). -/
def applyFlag (type : Char) (value : Double) (keeper : CSoundKeeper) : CSoundKeeper :=
  if type = 'f' then keeper.SetFrequency (stdMin value (Double.fin 96000))
  else if type = 'a' then
    keeper.SetAmplitude (stdMin (Double.div value (Double.fin 100)) (Double.fin 1))
  else if type = 'l' then keeper.SetPeriodicPlaying value
  else if type = 'w' then keeper.SetPeriodicWaiting value
  else if type = 't' then keeper.SetFading value
  else keeper

/-- The test of line 21: the five flag letters. -/
def isFlag (c : Char) : Bool :=
  c = 'f' || c = 'a' || c = 'l' || c = 'w' || c = 't'

/-- The loop of `ParseStreamArgs` (lines 18 to 52), run for at most `fuel`
iterations: `none` when the fuel is used up before the loop ends. -/
def scanLoop : Nat → CSoundKeeper → List Char → Option CSoundKeeper
  | 0, _, _ => none
  | _ + 1, keeper, [] => some keeper
  | fuel + 1, keeper, c :: r =>
      if c = ' ' ∨ c = '-' then scanLoop fuel keeper r
      else if isFlag c then
        let p := r.dropWhile (fun x => x = ' ' || x = '=')
        let v := strtod p
        scanLoop fuel (applyFlag c (fabs v.1) keeper) v.2
      else some keeper

/-- `ParseStreamArgs` (lines 10 to 53). The loop gets one iteration more
than there are characters, which is enough (`scanLoop_isSome`,
`scanLoop_fuel`). -/
def ParseStreamArgs (keeper : CSoundKeeper) (stream_type : KeepStreamType)
    (args : List Char) : Except Fault CSoundKeeper :=
  let k := (((keeper.SetStreamType stream_type).SetFrequency (Double.fin 1)).SetAmplitude
    (Double.fin (1 / 100))).SetFading (Double.fin (1 / 10))
  match scanLoop (args.length + 1) k args with
  | some r => Except.ok r
  | none => Except.error Fault.outOfFuel

/-- `ParseMode` (lines 55 to 78). `strcpy_s` into `buf[MAX_PATH]` calls the
invalid parameter handler, which ends the process, when the text and its
terminator do not fit. -/
def ParseMode (keeper : CSoundKeeper) (args : List Char) : Except Fault CSoundKeeper :=
  if MAX_PATH ≤ args.length then Except.error Fault.invalidParameter
  else
    let buf := _strlwr args
    let k1 := if (strstr buf [ 'a', 'l', 'l']).isSome
      then keeper.SetDeviceType KeepDeviceType.All else keeper
    let k2 := if (strstr buf [ 'a', 'n', 'a', 'l', 'o', 'g']).isSome
      then k1.SetDeviceType KeepDeviceType.Analog else k1
    let k3 := if (strstr buf [ 'd', 'i', 'g', 'i', 't', 'a', 'l']).isSome
      then k2.SetDeviceType KeepDeviceType.Digital else k2
    let k4 := if (strstr buf [ 'k', 'i', 'l', 'l']).isSome
      then k3.SetDeviceType KeepDeviceType.None else k3
    if (strstr buf [ 'z', 'e', 'r', 'o']).isSome ∨ (strstr buf [ 'n', 'u', 'l', 'l']).isSome then
      Except.ok (k4.SetStreamType KeepStreamType.Zero)
    else
      match strstr buf [ 's', 'i', 'n', 'e'] with
      | some p => ParseStreamArgs k4 KeepStreamType.Sine (p.drop 4)
      | none =>
          match strstr buf [ 'n', 'o', 'i', 's', 'e'] with
          | some p => ParseStreamArgs k4 KeepStreamType.WhiteNoise (p.drop 5)
          | none => Except.ok k4

/-- The configuration `Main` starts from (lines 94 to 96). The five parameters
are whatever the constructor left; they are arguments here. -/
def initialKeeper (f a t l w : Double) : CSoundKeeper :=
  ((CSoundKeeper.mk KeepDeviceType.None KeepStreamType.Zero f a t l w).SetDeviceType
    KeepDeviceType.Primary).SetStreamType KeepStreamType.Fluctuate

/-- One iteration of the loop of `ParseStreamArgs` (lines 18 to 52) with the
cursor at `p`: `none` when the loop ends there (end of text, or the `break` of
line 50), otherwise the configuration and the cursor after the iteration. -/
def scanStep (keeper : CSoundKeeper) : List Char → Option (CSoundKeeper × List Char)
  | [] => none
  | c :: r =>
      if c = ' ' ∨ c = '-' then some (keeper, r)
      else if isFlag c then
        let p := r.dropWhile (fun x => x = ' ' || x = '=')
        let v := strtod p
        some (applyFlag c (fabs v.1) keeper, v.2)
      else none

/-- The double quote. -/
def dquote : Char := Char.ofNat 34

/-- The backslash. -/
def backslash : Char := Char.ofNat 92

/-- The C library `strrchr`: the cursor at the last occurrence of `c`, if there
is one. -/
def strrchr : List Char → Char → Option (List Char)
  | [], _ => none
  | x :: r, c =>
      match strrchr r c with
      | some p => some p
      | none => if x = c then some (x :: r) else none

/-- The Windows call `GetModuleFileNameA(NULL, buffer, size)` when the path of
the executable is `path` (`none` when the call fails): the value returned and
the text left in the buffer. A path that does not fit with its terminator is
cut to `size - 1` characters and `size` is returned. -/
def GetModuleFileNameA (path : Option (List Char)) (size : Nat) : Nat × List Char :=
  match path with
  | none => (0, [])
  | some p => if p.length < size then (p.length, p) else (size, p.take (size - 1))

/-- The first pass of `Main` (lines 98 to 110), on the path of the executable. -/
def Main_fileName (keeper : CSoundKeeper) (modulePath : Option (List Char)) :
    Except Fault CSoundKeeper :=
  let fn := GetModuleFileNameA modulePath MAX_PATH
  if fn.1 ≠ 0 ∧ fn.1 ≠ MAX_PATH then
    match strrchr fn.2 backslash with
    | some filename => ParseMode keeper (filename.drop 1)
    | none => Except.ok keeper
  else Except.ok keeper

/-- The skipping of the program name in `Main` (lines 116 to 127): the cursor
into the command line after it. -/
def skipProgramName (cmdln : List Char) : List Char :=
  let s := cmdln.dropWhile (fun c => c = ' ')
  let s2 :=
    match s with
    | [] => []
    | c :: r =>
        if c = dquote then
          match r.dropWhile (fun x => x ≠ dquote) with
          | [] => []
          | q :: r3 => if q = dquote then r3 else q :: r3
        else (c :: r).dropWhile (fun x => x ≠ ' ')
  s2.dropWhile (fun c => c = ' ')

/-- The second pass of `Main` (lines 113 to 134), on the command line (`none`
when `GetCommandLineA` returns a null pointer). -/
def Main_commandLine (keeper : CSoundKeeper) (commandLine : Option (List Char)) :
    Except Fault CSoundKeeper :=
  match commandLine with
  | none => Except.ok keeper
  | some cmdln =>
      if skipProgramName cmdln ≠ [] then ParseMode keeper (skipProgramName cmdln)
      else Except.ok keeper

/-- The configuration part of `Main` (lines 94 to 134): the configuration handed
to the engine. `ctor` is the object as its constructor leaves it
(`CSoundKeeper.hpp` is not among the sources). -/
def Main (ctor : CSoundKeeper) (modulePath commandLine : Option (List Char)) :
    Except Fault CSoundKeeper :=
  let keeper := (ctor.SetDeviceType KeepDeviceType.Primary).SetStreamType
    KeepStreamType.Fluctuate
  match Main_fileName keeper modulePath with
  | Except.ok k1 => Main_commandLine k1 commandLine
  | Except.error e => Except.error e

/-! ## Notions used to state and prove the properties -/

/-- The result of the loop of `ParseStreamArgs` on `args`: the loop run with one
iteration more than there are characters (`scanLoop_eq_scan` shows that any
such amount of fuel gives this result). -/
def scan (keeper : CSoundKeeper) (args : List Char) : CSoundKeeper :=
  (scanLoop (args.length + 1) keeper args).getD keeper

/-- The four assignments at the head of `ParseStreamArgs` (lines 12 to 15). -/
def resetStream (keeper : CSoundKeeper) (stream_type : KeepStreamType) : CSoundKeeper :=
  (((keeper.SetStreamType stream_type).SetFrequency (Double.fin 1)).SetAmplitude
    (Double.fin (1 / 100))).SetFading (Double.fin (1 / 10))

/-- The device part of `ParseMode` (lines 61 to 64) on the lowercased text. -/
def deviceStep (keeper : CSoundKeeper) (buf : List Char) : CSoundKeeper :=
  let k1 := if (strstr buf [ 'a', 'l', 'l']).isSome
    then keeper.SetDeviceType KeepDeviceType.All else keeper
  let k2 := if (strstr buf [ 'a', 'n', 'a', 'l', 'o', 'g']).isSome
    then k1.SetDeviceType KeepDeviceType.Analog else k1
  let k3 := if (strstr buf [ 'd', 'i', 'g', 'i', 't', 'a', 'l']).isSome
    then k2.SetDeviceType KeepDeviceType.Digital else k2
  if (strstr buf [ 'k', 'i', 'l', 'l']).isSome
    then k3.SetDeviceType KeepDeviceType.None else k3

/-- The stream part of `ParseMode` (lines 66 to 77) on the lowercased text, with
the loop of `ParseStreamArgs` run to its end. -/
def streamStep (keeper : CSoundKeeper) (buf : List Char) : CSoundKeeper :=
  if (strstr buf [ 'z', 'e', 'r', 'o']).isSome ∨ (strstr buf [ 'n', 'u', 'l', 'l']).isSome then
    keeper.SetStreamType KeepStreamType.Zero
  else
    match strstr buf [ 's', 'i', 'n', 'e'] with
    | some p => scan (resetStream keeper KeepStreamType.Sine) (p.drop 4)
    | none =>
        match strstr buf [ 'n', 'o', 'i', 's', 'e'] with
        | some p => scan (resetStream keeper KeepStreamType.WhiteNoise) (p.drop 5)
        | none => keeper

/-- An update `f` of the configuration either keeps the component `π` as it
was, or sets it to a value that does not depend on the configuration. -/
def KeepsOrSets {α : Type} (π : CSoundKeeper → α) (f : CSoundKeeper → CSoundKeeper) : Prop :=
  (∀ k, π (f k) = π k) ∨ (∀ k k2, π (f k) = π (f k2))

/-- The component `π` is kept or set by each of the seven setters: it behaves
like a field. -/
structure FieldLike {α : Type} (π : CSoundKeeper → α) : Prop where
  dev : ∀ d, KeepsOrSets π (fun k => k.SetDeviceType d)
  str : ∀ s, KeepsOrSets π (fun k => k.SetStreamType s)
  freq : ∀ v, KeepsOrSets π (fun k => k.SetFrequency v)
  amp : ∀ v, KeepsOrSets π (fun k => k.SetAmplitude v)
  fad : ∀ v, KeepsOrSets π (fun k => k.SetFading v)
  play : ∀ v, KeepsOrSets π (fun k => k.SetPeriodicPlaying v)
  wait : ∀ v, KeepsOrSets π (fun k => k.SetPeriodicWaiting v)

/-- A configuration with recognisable values, used for concrete runs. -/
def sampleKeeper : CSoundKeeper :=
  initialKeeper (Double.fin 50) (Double.fin (1 / 2)) (Double.fin 2) (Double.fin 3) (Double.fin 4)

/-- A decimal numeral: the digits before the point and the digits after it
(no point is written when there are none after it). -/
structure Numeral where
  ip : List Char
  fp : List Char

namespace Numeral

/-- The numeral is well formed: at least one digit before the point, and only
digits. -/
def Valid (n : Numeral) : Prop :=
  n.ip ≠ [] ∧ n.ip.all Char.isDigit = true ∧ n.fp.all Char.isDigit = true

instance (n : Numeral) : Decidable n.Valid := by
  unfold Valid
  infer_instance

/-- The text of the numeral. -/
def text (n : Numeral) : List Char :=
  n.ip ++ (if n.fp = [] then [] else '.' :: n.fp)

/-- The number the numeral denotes, by positional notation in base ten. -/
def value (n : Numeral) : ℚ :=
  ((Nat.ofDigits (10 : ℕ) ((n.ip ++ n.fp).reverse.map (fun c => c.toNat - 48)) : ℕ) : ℚ)
    / (10 : ℚ) ^ n.fp.length

end Numeral

/-- The comparison `a <= b` of two doubles; false as soon as one is NaN. -/
def Double.le : Double → Double → Bool
  | Double.fin a, Double.fin b => decide (a ≤ b)
  | Double.fin _, Double.inf neg => !neg
  | Double.inf neg, Double.fin _ => neg
  | Double.inf a, Double.inf b => a || !b
  | Double.nan, _ => false
  | Double.fin _, Double.nan => false
  | Double.inf _, Double.nan => false

/-- The bounds of the stream parameters: frequency from 0 to 96000, amplitude
from 0 to 1, the three times at least 0. -/
def InRange (k : CSoundKeeper) : Prop :=
  Double.le (Double.fin 0) k.frequency = true ∧
  Double.le k.frequency (Double.fin 96000) = true ∧
  Double.le (Double.fin 0) k.amplitude = true ∧
  Double.le k.amplitude (Double.fin 1) = true ∧
  Double.le (Double.fin 0) k.fading = true ∧
  Double.le (Double.fin 0) k.periodicPlaying = true ∧
  Double.le (Double.fin 0) k.periodicWaiting = true

/-- The bounds of the stream parameters, for the fields that are not NaN. -/
def InRangeOrNaN (k : CSoundKeeper) : Prop :=
  (k.frequency = Double.nan ∨ (Double.le (Double.fin 0) k.frequency = true ∧
    Double.le k.frequency (Double.fin 96000) = true)) ∧
  (k.amplitude = Double.nan ∨ (Double.le (Double.fin 0) k.amplitude = true ∧
    Double.le k.amplitude (Double.fin 1) = true)) ∧
  (k.fading = Double.nan ∨ Double.le (Double.fin 0) k.fading = true) ∧
  (k.periodicPlaying = Double.nan ∨ Double.le (Double.fin 0) k.periodicPlaying = true) ∧
  (k.periodicWaiting = Double.nan ∨ Double.le (Double.fin 0) k.periodicWaiting = true)

/-- The text starts with a digit. -/
def digitAt (q : List Char) : Bool :=
  match q with
  | [] => false
  | c :: _ => c.isDigit

/-- The text starts the unsigned part of a number as the C library reads it: a
digit, a point and a digit, or one of the words "inf" and "nan" in either
case. -/
def startsNumber (q : List Char) : Bool :=
  digitAt q || (q.head? = some '.' && digitAt q.tail) ||
    [ 'i', 'n', 'f'].isPrefixOf (q.map Char.toLower) ||
    [ 'n', 'a', 'n'].isPrefixOf (q.map Char.toLower)

/-- The text begins a number as the C library reads it: optional white space,
an optional sign, then the start of the unsigned part. -/
def beginsNumber (p : List Char) : Bool :=
  startsNumber (readSign (p.dropWhile isspace)).2

end SoundKeeper

/-! ## Properties -/

namespace SoundKeeper

/-! ### `strstr` and occurrences -/

theorem strstr_isSome_iff (hay needle : List Char) :
    (strstr hay needle).isSome = true ↔ needle <:+: hay := by
  induction hay with
  | nil =>
      by_cases hn : needle = []
      · simp [strstr, hn]
      · simp [strstr, hn]
  | cons c r ih =>
      rw [strstr, List.infix_cons_iff, ← ih]
      by_cases hp : needle.isPrefixOf (c :: r) = true
      · simp [hp, List.isPrefixOf_iff_prefix.mp hp]
      · have hp2 : ¬ needle <+: c :: r := fun h => hp (List.isPrefixOf_iff_prefix.mpr h)
        simp [hp, hp2]

theorem strstr_eq_none_iff (hay needle : List Char) :
    strstr hay needle = none ↔ ¬ needle <:+: hay := by
  rw [← strstr_isSome_iff]
  cases strstr hay needle <;> simp

/-- The first occurrence: when `needle` does not occur before the end of
`pre ++ needle`, the cursor returned is at the end of `pre`. -/
theorem strstr_first (pre needle rest : List Char) (hne : needle ≠ [])
    (hfirst : ¬ needle <:+: pre ++ needle.dropLast) :
    strstr (pre ++ needle ++ rest) needle = some (needle ++ rest) := by
  induction pre with
  | nil =>
      obtain ⟨a, l, rfl⟩ := List.exists_cons_of_ne_nil hne
      have hp : (a :: l).isPrefixOf (a :: (l ++ rest)) = true :=
        List.isPrefixOf_iff_prefix.mpr ⟨rest, rfl⟩
      simp only [List.nil_append, List.cons_append, strstr]
      simp only [List.cons_append] at hp
      simp [hp]
  | cons c pre ih =>
      have h1 : ¬ needle <:+: pre ++ needle.dropLast := by
        intro h
        apply hfirst
        rw [List.cons_append, List.infix_cons_iff]
        exact Or.inr h
      have h2 : ¬ needle <+: c :: (pre ++ needle ++ rest) := by
        intro h
        apply hfirst
        have hlen : needle.length ≤ (c :: (pre ++ needle.dropLast)).length := by
          have : 0 < needle.length := List.length_pos.mpr hne
          simp only [List.length_cons, List.length_append, List.length_dropLast]
          omega
        have h3 : c :: (pre ++ needle.dropLast) <+: c :: (pre ++ needle ++ rest) := by
          refine ⟨needle.getLast hne :: rest, ?_⟩
          have := List.dropLast_append_getLast hne
          simp only [List.cons_append, List.append_assoc, List.cons.injEq, true_and]
          conv_rhs => rw [← this]
          simp
        have h4 := List.prefix_of_prefix_length_le h h3 hlen
        exact h4.isInfix
      have hp : needle.isPrefixOf (c :: (pre ++ needle ++ rest)) = false := by
        cases hb : needle.isPrefixOf (c :: (pre ++ needle ++ rest))
        · rfl
        · exact absurd (List.isPrefixOf_iff_prefix.mp hb) h2
      have e : (c :: pre) ++ needle ++ rest = c :: (pre ++ needle ++ rest) := rfl
      rw [e, strstr, if_neg (by rw [hp]; simp)]
      exact ih h1

/-! ### `strtod` never moves the cursor backward -/

theorem readSign_suffix (s : List Char) : (readSign s).2 <:+ s := by
  unfold readSign
  split
  · exact List.suffix_cons _ _
  · exact List.suffix_cons _ _
  · exact List.suffix_refl _

theorem readExponent_suffix (m : Char) (s : List Char) : (readExponent m s).2 <:+ s := by
  unfold readExponent
  split
  · exact List.suffix_refl _
  · rename_i c r
    dsimp only
    split
    · split
      · exact List.suffix_refl _
      · exact ((List.dropWhile_suffix _).trans (readSign_suffix r)).trans (List.suffix_cons _ _)
    · exact List.suffix_refl _

theorem readMantissa_suffix (isD : Char → Bool) (s : List Char) :
    (readMantissa isD s).2.2 <:+ s := by
  unfold readMantissa
  dsimp only
  split
  · rename_i r h
    have h1 : List.dropWhile isD s <:+ s := List.dropWhile_suffix _
    rw [h] at h1
    exact ((List.dropWhile_suffix _).trans (List.suffix_cons _ _)).trans h1
  · exact List.dropWhile_suffix _

theorem parseDecimal_suffix (s : List Char) (r : Double × List Char)
    (h : parseDecimal s = some r) : r.2 <:+ s := by
  unfold parseDecimal at h
  dsimp only at h
  split at h
  · exact absurd h (by simp)
  · simp only [Option.some.injEq] at h
    rw [← h]
    exact (readExponent_suffix _ _).trans (readMantissa_suffix _ _)

theorem parseHex_suffix (s : List Char) (r : Double × List Char)
    (h : parseHex s = some r) : r.2 <:+ s := by
  unfold parseHex at h
  split at h
  · rename_i x t
    dsimp only at h
    split at h
    · split at h
      · exact absurd h (by simp)
      · simp only [Option.some.injEq] at h
        rw [← h]
        exact (((readExponent_suffix _ _).trans (readMantissa_suffix _ _)).trans
          (List.suffix_cons _ _)).trans (List.suffix_cons _ _)
    · exact absurd h (by simp)
  · exact absurd h (by simp)

theorem parseSpecial_suffix (s : List Char) (r : Double × List Char)
    (h : parseSpecial s = some r) : r.2 <:+ s := by
  unfold parseSpecial at h
  dsimp only at h
  split at h
  · simp only [Option.some.injEq] at h
    rw [← h]
    exact List.drop_suffix _ _
  · split at h
    · simp only [Option.some.injEq] at h
      rw [← h]
      exact List.drop_suffix _ _
    · split at h
      · split at h
        · rename_i t hd
          split at h
          · rename_i t2 hd2
            simp only [Option.some.injEq] at h
            rw [← h]
            have h1 : List.dropWhile isNanChar t <:+ t := List.dropWhile_suffix _
            rw [hd2] at h1
            have h2 : List.drop 3 s <:+ s := List.drop_suffix _ _
            rw [hd] at h2
            exact (((List.suffix_cons _ _).trans h1).trans (List.suffix_cons _ _)).trans h2
          · simp only [Option.some.injEq] at h
            rw [← h]
            exact List.drop_suffix _ _
        · simp only [Option.some.injEq] at h
          rw [← h]
          exact List.drop_suffix _ _
      · exact absurd h (by simp)

theorem parseMagnitude_suffix (s : List Char) (r : Double × List Char)
    (h : parseMagnitude s = some r) : r.2 <:+ s := by
  unfold parseMagnitude at h
  split at h
  · rename_i r1 h1
    simp only [Option.some.injEq] at h
    rw [← h]
    exact parseSpecial_suffix s r1 h1
  · split at h
    · rename_i r1 h1
      simp only [Option.some.injEq] at h
      rw [← h]
      exact parseHex_suffix s r1 h1
    · exact parseDecimal_suffix s r h

/-- The cursor `strtod` returns is the one it was given or a later one. -/
theorem strtod_suffix (s : List Char) : (strtod s).2 <:+ s := by
  unfold strtod
  dsimp only
  split
  · exact List.suffix_refl _
  · rename_i r h
    exact ((parseMagnitude_suffix _ r h).trans (readSign_suffix _)).trans
      (List.dropWhile_suffix _)

theorem strtod_length_le (s : List Char) : (strtod s).2.length ≤ s.length :=
  (strtod_suffix s).length_le

/-! ### The loop of `ParseStreamArgs` ends -/

/-- With more iterations allowed than there are characters, the loop ends. -/
theorem scanLoop_isSome : ∀ (n : Nat) (k : CSoundKeeper) (p : List Char),
    p.length < n → (scanLoop n k p).isSome = true := by
  intro n
  induction n with
  | zero => intro k p h; exact absurd h (Nat.not_lt_zero _)
  | succ n ih =>
      intro k p h
      cases p with
      | nil => simp [scanLoop]
      | cons c r =>
          have hr : r.length < n := by simpa using h
          rw [scanLoop]
          split
          · exact ih k r hr
          · split
            · apply ih
              have h1 := strtod_length_le (List.dropWhile (fun x => x = ' ' || x = '=') r)
              have h2 : (List.dropWhile (fun x => decide (x = ' ') || decide (x = '=')) r).length
                  ≤ r.length := (List.dropWhile_suffix _).length_le
              omega
            · rfl

/-- Once the loop has ended, more fuel gives the same result. -/
theorem scanLoop_succ : ∀ (n : Nat) (k r : CSoundKeeper) (p : List Char),
    scanLoop n k p = some r → scanLoop (n + 1) k p = some r := by
  intro n
  induction n with
  | zero => intro k r p h; simp [scanLoop] at h
  | succ n ih =>
      intro k r p h
      cases p with
      | nil => simpa [scanLoop] using h
      | cons c t =>
          rw [scanLoop] at h
          rw [scanLoop]
          split
          · rename_i hc
            rw [if_pos hc] at h
            exact ih _ _ _ h
          · rename_i hc
            rw [if_neg hc] at h
            split
            · rename_i hf
              rw [if_pos hf] at h
              exact ih _ _ _ h
            · rename_i hf
              rw [if_neg hf] at h
              exact h

theorem scanLoop_le (n m : Nat) (k r : CSoundKeeper) (p : List Char) (hnm : n ≤ m)
    (h : scanLoop n k p = some r) : scanLoop m k p = some r := by
  induction hnm with
  | refl => exact h
  | step _ ih => exact scanLoop_succ _ _ _ _ ih

/-- Any amount of fuel above the number of characters gives the result `scan`. -/
theorem scanLoop_eq_scan (n : Nat) (k : CSoundKeeper) (p : List Char) (h : p.length < n) :
    scanLoop n k p = some (scan k p) := by
  have h1 := scanLoop_isSome (p.length + 1) k p (Nat.lt_succ_self _)
  obtain ⟨r, hr⟩ := Option.isSome_iff_exists.mp h1
  have h2 : scan k p = r := by simp [scan, hr]
  rw [h2]
  exact scanLoop_le _ _ _ _ _ h hr

theorem scan_nil (k : CSoundKeeper) : scan k [] = k := by
  simp [scan, scanLoop]

theorem scan_skip (k : CSoundKeeper) (c : Char) (r : List Char) (hc : c = ' ' ∨ c = '-') :
    scan k (c :: r) = scan k r := by
  have h := scanLoop_eq_scan (r.length + 1) k r (Nat.lt_succ_self _)
  have e : scan k (c :: r) = (scanLoop (r.length + 1 + 1) k (c :: r)).getD k := rfl
  rw [e, scanLoop, if_pos hc, h]
  rfl

theorem scan_flag (k : CSoundKeeper) (c : Char) (r : List Char) (hf : isFlag c = true) :
    scan k (c :: r) =
      scan (applyFlag c (fabs (strtod (r.dropWhile (fun x => x = ' ' || x = '='))).1) k)
        (strtod (r.dropWhile (fun x => x = ' ' || x = '='))).2 := by
  have hc : ¬ (c = ' ' ∨ c = '-') := by
    rintro (rfl | rfl) <;> simp [isFlag] at hf
  have hlen : (strtod (r.dropWhile (fun x => x = ' ' || x = '='))).2.length < r.length + 1 := by
    have h1 := strtod_length_le (List.dropWhile (fun x => x = ' ' || x = '=') r)
    have h2 : (List.dropWhile (fun x => decide (x = ' ') || decide (x = '=')) r).length
        ≤ r.length := (List.dropWhile_suffix _).length_le
    omega
  have h := scanLoop_eq_scan (r.length + 1)
    (applyFlag c (fabs (strtod (r.dropWhile (fun x => x = ' ' || x = '='))).1) k) _ hlen
  have e : scan k (c :: r) = (scanLoop (r.length + 1 + 1) k (c :: r)).getD k := rfl
  rw [e, scanLoop, if_neg hc, if_pos hf]
  dsimp only
  rw [h]
  rfl

theorem scan_stop (k : CSoundKeeper) (c : Char) (r : List Char)
    (hc : ¬ (c = ' ' ∨ c = '-')) (hf : isFlag c = false) : scan k (c :: r) = k := by
  have e : scan k (c :: r) = (scanLoop (r.length + 1 + 1) k (c :: r)).getD k := rfl
  rw [e, scanLoop, if_neg hc, if_neg (by simp [hf])]
  rfl

/-- `ParseStreamArgs` returns, and its result is the reset followed by the scan. -/
theorem ParseStreamArgs_eq (k : CSoundKeeper) (ty : KeepStreamType) (args : List Char) :
    ParseStreamArgs k ty args = Except.ok (scan (resetStream k ty) args) := by
  unfold ParseStreamArgs
  dsimp only
  have h := scanLoop_eq_scan (args.length + 1) (resetStream k ty) args (Nat.lt_succ_self _)
  unfold resetStream at h
  rw [h]
  rfl

/-- `ParseMode` returns on every text that fits the buffer, and its result is
the device part followed by the stream part. -/
theorem ParseMode_eq (k : CSoundKeeper) (t : List Char) (h : t.length < MAX_PATH) :
    ParseMode k t =
      Except.ok (streamStep (deviceStep k (t.map Char.toLower)) (t.map Char.toLower)) := by
  unfold ParseMode _strlwr
  rw [if_neg (Nat.not_le.mpr h)]
  dsimp only
  unfold streamStep deviceStep
  dsimp only
  split
  · rfl
  · split
    · rename_i p hp
      rw [ParseStreamArgs_eq]
    · split
      · rw [ParseStreamArgs_eq]
      · rfl

/-! ### What the loop and the two parts of `ParseMode` touch -/

/-- A component of the configuration that no flag assigns is left alone by the
whole scan. -/
theorem scan_preserve {α : Type} (π : CSoundKeeper → α)
    (hπ : ∀ ty v k, π (applyFlag ty v k) = π k) :
    ∀ (n : Nat) (p : List Char), p.length ≤ n → ∀ k, π (scan k p) = π k := by
  intro n
  induction n with
  | zero =>
      intro p hp k
      have : p = [] := List.length_eq_zero.mp (Nat.le_zero.mp hp)
      rw [this, scan_nil]
  | succ n ih =>
      intro p hp k
      cases p with
      | nil => rw [scan_nil]
      | cons c r =>
          have hr : r.length ≤ n := by simpa using hp
          by_cases hc : c = ' ' ∨ c = '-'
          · rw [scan_skip k c r hc]
            exact ih r hr k
          · cases hf : isFlag c
            · rw [scan_stop k c r hc hf]
            · rw [scan_flag k c r hf, ih _ _ _, hπ]
              have h1 := strtod_length_le (List.dropWhile (fun x => x = ' ' || x = '=') r)
              have h2 : (List.dropWhile (fun x => decide (x = ' ') || decide (x = '=')) r).length
                  ≤ r.length := (List.dropWhile_suffix _).length_le
              omega

theorem applyFlag_deviceType (ty : Char) (v : Double) (k : CSoundKeeper) :
    (applyFlag ty v k).deviceType = k.deviceType := by
  unfold applyFlag
  split_ifs <;> rfl

theorem applyFlag_streamType (ty : Char) (v : Double) (k : CSoundKeeper) :
    (applyFlag ty v k).streamType = k.streamType := by
  unfold applyFlag
  split_ifs <;> rfl

theorem scan_deviceType (k : CSoundKeeper) (p : List Char) :
    (scan k p).deviceType = k.deviceType :=
  scan_preserve (fun k => k.deviceType) applyFlag_deviceType p.length p (Nat.le_refl _) k

theorem scan_streamType (k : CSoundKeeper) (p : List Char) :
    (scan k p).streamType = k.streamType :=
  scan_preserve (fun k => k.streamType) applyFlag_streamType p.length p (Nat.le_refl _) k

theorem streamStep_deviceType (k : CSoundKeeper) (buf : List Char) :
    (streamStep k buf).deviceType = k.deviceType := by
  unfold streamStep
  split
  · rfl
  · split
    · rw [scan_deviceType]; rfl
    · split
      · rw [scan_deviceType]; rfl
      · rfl

theorem deviceStep_deviceType (k : CSoundKeeper) (buf : List Char) :
    (deviceStep k buf).deviceType =
      if [ 'k', 'i', 'l', 'l'] <:+: buf then KeepDeviceType.None
      else if [ 'd', 'i', 'g', 'i', 't', 'a', 'l'] <:+: buf then KeepDeviceType.Digital
      else if [ 'a', 'n', 'a', 'l', 'o', 'g'] <:+: buf then KeepDeviceType.Analog
      else if [ 'a', 'l', 'l'] <:+: buf then KeepDeviceType.All
      else k.deviceType := by
  unfold deviceStep
  simp only [strstr_isSome_iff]
  split_ifs <;> rfl

/-- The device part changes the device tag only. -/
theorem deviceStep_rest (k : CSoundKeeper) (buf : List Char) :
    (deviceStep k buf).streamType = k.streamType ∧
    (deviceStep k buf).frequency = k.frequency ∧
    (deviceStep k buf).amplitude = k.amplitude ∧
    (deviceStep k buf).fading = k.fading ∧
    (deviceStep k buf).periodicPlaying = k.periodicPlaying ∧
    (deviceStep k buf).periodicWaiting = k.periodicWaiting := by
  unfold deviceStep
  dsimp only
  split_ifs <;> exact ⟨rfl, rfl, rfl, rfl, rfl, rfl⟩

theorem deviceStep_none (k : CSoundKeeper) (buf : List Char)
    (h1 : ¬ [ 'a', 'l', 'l'] <:+: buf) (h2 : ¬ [ 'a', 'n', 'a', 'l', 'o', 'g'] <:+: buf)
    (h3 : ¬ [ 'd', 'i', 'g', 'i', 't', 'a', 'l'] <:+: buf)
    (h4 : ¬ [ 'k', 'i', 'l', 'l'] <:+: buf) : deviceStep k buf = k := by
  unfold deviceStep
  simp only [strstr_isSome_iff]
  simp [h1, h2, h3, h4]

theorem streamStep_zero (k : CSoundKeeper) (buf : List Char)
    (h : [ 'z', 'e', 'r', 'o'] <:+: buf ∨ [ 'n', 'u', 'l', 'l'] <:+: buf) :
    streamStep k buf = k.SetStreamType KeepStreamType.Zero := by
  unfold streamStep
  simp only [strstr_isSome_iff]
  rw [if_pos h]

theorem streamStep_sine (k : CSoundKeeper) (buf : List Char)
    (h1 : ¬ [ 'z', 'e', 'r', 'o'] <:+: buf) (h2 : ¬ [ 'n', 'u', 'l', 'l'] <:+: buf)
    (p : List Char) (hp : strstr buf [ 's', 'i', 'n', 'e'] = some p) :
    streamStep k buf = scan (resetStream k KeepStreamType.Sine) (p.drop 4) := by
  unfold streamStep
  simp only [strstr_isSome_iff]
  rw [if_neg (by simp [h1, h2]), hp]

theorem streamStep_noise (k : CSoundKeeper) (buf : List Char)
    (h1 : ¬ [ 'z', 'e', 'r', 'o'] <:+: buf) (h2 : ¬ [ 'n', 'u', 'l', 'l'] <:+: buf)
    (h3 : ¬ [ 's', 'i', 'n', 'e'] <:+: buf)
    (p : List Char) (hp : strstr buf [ 'n', 'o', 'i', 's', 'e'] = some p) :
    streamStep k buf = scan (resetStream k KeepStreamType.WhiteNoise) (p.drop 5) := by
  unfold streamStep
  simp only [strstr_isSome_iff]
  rw [if_neg (by simp [h1, h2]), (strstr_eq_none_iff _ _).mpr h3]
  dsimp only
  rw [hp]

theorem streamStep_none (k : CSoundKeeper) (buf : List Char)
    (h1 : ¬ [ 'z', 'e', 'r', 'o'] <:+: buf) (h2 : ¬ [ 'n', 'u', 'l', 'l'] <:+: buf)
    (h3 : ¬ [ 's', 'i', 'n', 'e'] <:+: buf) (h4 : ¬ [ 'n', 'o', 'i', 's', 'e'] <:+: buf) :
    streamStep k buf = k := by
  unfold streamStep
  simp only [strstr_isSome_iff]
  rw [if_neg (by simp [h1, h2]), (strstr_eq_none_iff _ _).mpr h3,
    (strstr_eq_none_iff _ _).mpr h4]

/-! ### The claims -/

/-- C1. On every text that fits the buffer, with L its lowercased form, the
device tag after `ParseMode` is None if L contains "kill", otherwise Digital if
L contains "digital", otherwise Analog if L contains "analog", otherwise All if
L contains "all", otherwise the tag the configuration had; where the keywords
stand in the text plays no part. -/
theorem ParseMode_deviceType (c : CSoundKeeper) (t : List Char) (h : t.length < MAX_PATH) :
    ∃ r, ParseMode c t = Except.ok r ∧
      r.deviceType =
        if [ 'k', 'i', 'l', 'l'] <:+: t.map Char.toLower then KeepDeviceType.None
        else if [ 'd', 'i', 'g', 'i', 't', 'a', 'l'] <:+: t.map Char.toLower then
          KeepDeviceType.Digital
        else if [ 'a', 'n', 'a', 'l', 'o', 'g'] <:+: t.map Char.toLower then
          KeepDeviceType.Analog
        else if [ 'a', 'l', 'l'] <:+: t.map Char.toLower then KeepDeviceType.All
        else c.deviceType := by
  refine ⟨_, ParseMode_eq c t h, ?_⟩
  rw [streamStep_deviceType, deviceStep_deviceType]

/-- C1, on the texts "all digital kill" and "kill all": both end with the
device tag None. -/
theorem ParseMode_deviceType_witness :
    "all digital kill".toList.length < MAX_PATH ∧
    (∃ r, ParseMode sampleKeeper "all digital kill".toList = Except.ok r ∧
      r.deviceType = KeepDeviceType.None) ∧
    (∃ r, ParseMode sampleKeeper "kill all".toList = Except.ok r ∧
      r.deviceType = KeepDeviceType.None) := by
  refine ⟨by decide, ?_, ?_⟩
  · obtain ⟨r, h1, h2⟩ := ParseMode_deviceType sampleKeeper "all digital kill".toList (by decide)
    exact ⟨r, h1, by rw [h2]; decide⟩
  · obtain ⟨r, h1, h2⟩ := ParseMode_deviceType sampleKeeper "kill all".toList (by decide)
    exact ⟨r, h1, by rw [h2]; decide⟩

/-- C2. On every text that fits the buffer and whose lowercased form contains
"zero" or "null", `ParseMode` sets the stream tag to Zero and leaves the five
stream parameters as they were, whatever else the text holds; and the texts
"zero" and "null" give the same result. -/
theorem ParseMode_zero (c : CSoundKeeper) (t : List Char) (h : t.length < MAX_PATH)
    (hz : [ 'z', 'e', 'r', 'o'] <:+: t.map Char.toLower ∨
      [ 'n', 'u', 'l', 'l'] <:+: t.map Char.toLower) :
    (∃ r, ParseMode c t = Except.ok r ∧ r.streamType = KeepStreamType.Zero ∧
      r.frequency = c.frequency ∧ r.amplitude = c.amplitude ∧ r.fading = c.fading ∧
      r.periodicPlaying = c.periodicPlaying ∧ r.periodicWaiting = c.periodicWaiting) ∧
    ParseMode c [ 'z', 'e', 'r', 'o'] = ParseMode c [ 'n', 'u', 'l', 'l'] := by
  constructor
  · refine ⟨_, ParseMode_eq c t h, ?_⟩
    rw [streamStep_zero _ _ hz]
    obtain ⟨-, h2, h3, h4, h5, h6⟩ := deviceStep_rest c (t.map Char.toLower)
    exact ⟨rfl, h2, h3, h4, h5, h6⟩
  · rw [ParseMode_eq c _ (by decide), ParseMode_eq c _ (by decide),
      streamStep_zero _ _ (Or.inl (by decide)), streamStep_zero _ _ (Or.inr (by decide)),
      deviceStep_none _ _ (by decide) (by decide) (by decide) (by decide),
      deviceStep_none _ _ (by decide) (by decide) (by decide) (by decide)]

/-- C2, on the text "Null sine f=9 a=9": the stream tag is Zero and the five
parameters of the sample configuration stand. -/
theorem ParseMode_zero_witness :
    "Null sine f=9 a=9".toList.length < MAX_PATH ∧
    ([ 'z', 'e', 'r', 'o'] <:+: "Null sine f=9 a=9".toList.map Char.toLower ∨
      [ 'n', 'u', 'l', 'l'] <:+: "Null sine f=9 a=9".toList.map Char.toLower) ∧
    ((∃ r, ParseMode sampleKeeper "Null sine f=9 a=9".toList = Except.ok r ∧
      r.streamType = KeepStreamType.Zero ∧
      r.frequency = sampleKeeper.frequency ∧ r.amplitude = sampleKeeper.amplitude ∧
      r.fading = sampleKeeper.fading ∧
      r.periodicPlaying = sampleKeeper.periodicPlaying ∧
      r.periodicWaiting = sampleKeeper.periodicWaiting) ∧
    ParseMode sampleKeeper [ 'z', 'e', 'r', 'o'] = ParseMode sampleKeeper [ 'n', 'u', 'l', 'l']) :=
  ⟨by decide, by decide,
    ParseMode_zero sampleKeeper "Null sine f=9 a=9".toList (by decide) (by decide)⟩

/-- C4. On every text that fits the buffer, with L its lowercased form: when L
contains none of "all", "analog", "digital", "kill" the device tag is left as
it was; when L contains none of "zero", "null", "sine", "noise" the stream tag
and the five stream parameters are left as they were; and when L contains none
of the eight keywords (the empty text is one such) the result is the
configuration `ParseMode` was given. -/
theorem ParseMode_frame (c : CSoundKeeper) (t : List Char) (h : t.length < MAX_PATH) :
    ∃ r, ParseMode c t = Except.ok r ∧
      ((¬ [ 'a', 'l', 'l'] <:+: t.map Char.toLower ∧
        ¬ [ 'a', 'n', 'a', 'l', 'o', 'g'] <:+: t.map Char.toLower ∧
        ¬ [ 'd', 'i', 'g', 'i', 't', 'a', 'l'] <:+: t.map Char.toLower ∧
        ¬ [ 'k', 'i', 'l', 'l'] <:+: t.map Char.toLower) →
          r.deviceType = c.deviceType) ∧
      ((¬ [ 'z', 'e', 'r', 'o'] <:+: t.map Char.toLower ∧
        ¬ [ 'n', 'u', 'l', 'l'] <:+: t.map Char.toLower ∧
        ¬ [ 's', 'i', 'n', 'e'] <:+: t.map Char.toLower ∧
        ¬ [ 'n', 'o', 'i', 's', 'e'] <:+: t.map Char.toLower) →
          r.streamType = c.streamType ∧ r.frequency = c.frequency ∧
          r.amplitude = c.amplitude ∧ r.fading = c.fading ∧
          r.periodicPlaying = c.periodicPlaying ∧
          r.periodicWaiting = c.periodicWaiting) ∧
      ((¬ [ 'a', 'l', 'l'] <:+: t.map Char.toLower ∧
        ¬ [ 'a', 'n', 'a', 'l', 'o', 'g'] <:+: t.map Char.toLower ∧
        ¬ [ 'd', 'i', 'g', 'i', 't', 'a', 'l'] <:+: t.map Char.toLower ∧
        ¬ [ 'k', 'i', 'l', 'l'] <:+: t.map Char.toLower ∧
        ¬ [ 'z', 'e', 'r', 'o'] <:+: t.map Char.toLower ∧
        ¬ [ 'n', 'u', 'l', 'l'] <:+: t.map Char.toLower ∧
        ¬ [ 's', 'i', 'n', 'e'] <:+: t.map Char.toLower ∧
        ¬ [ 'n', 'o', 'i', 's', 'e'] <:+: t.map Char.toLower) → r = c) := by
  refine ⟨_, ParseMode_eq c t h, ?_, ?_, ?_⟩
  · rintro ⟨h1, h2, h3, h4⟩
    rw [streamStep_deviceType]
    exact congrArg CSoundKeeper.deviceType (deviceStep_none c _ h1 h2 h3 h4)
  · rintro ⟨h1, h2, h3, h4⟩
    rw [streamStep_none _ _ h1 h2 h3 h4]
    exact deviceStep_rest c (t.map Char.toLower)
  · rintro ⟨h1, h2, h3, h4, h5, h6, h7, h8⟩
    rw [streamStep_none _ _ h5 h6 h7 h8]
    exact deviceStep_none c _ h1 h2 h3 h4

/-- C4, on the empty text and on the keyword-free text "xyz f=10": both leave
the sample configuration as it was. -/
theorem ParseMode_frame_witness :
    ([] : List Char).length < MAX_PATH ∧ "xyz f=10".toList.length < MAX_PATH ∧
    ParseMode sampleKeeper [] = Except.ok sampleKeeper ∧
    ParseMode sampleKeeper "xyz f=10".toList = Except.ok sampleKeeper := by
  refine ⟨by decide, by decide, ?_, ?_⟩
  · obtain ⟨r, h1, -, -, h2⟩ := ParseMode_frame sampleKeeper [] (by decide)
    rw [h1, h2 (by decide)]
  · obtain ⟨r, h1, -, -, h2⟩ := ParseMode_frame sampleKeeper "xyz f=10".toList (by decide)
    rw [h1, h2 (by decide)]

/-! ### Every field is either kept or overwritten -/

theorem KeepsOrSets.id {α : Type} (π : CSoundKeeper → α) : KeepsOrSets π (fun k => k) :=
  Or.inl (fun _ => rfl)

theorem KeepsOrSets.comp {α : Type} {π : CSoundKeeper → α} {f g : CSoundKeeper → CSoundKeeper}
    (hf : KeepsOrSets π f) (hg : KeepsOrSets π g) : KeepsOrSets π (fun k => g (f k)) := by
  rcases hg with hg | hg
  · rcases hf with hf | hf
    · exact Or.inl (fun k => (hg (f k)).trans (hf k))
    · exact Or.inr (fun k k2 => by rw [hg, hg, hf k k2])
  · exact Or.inr (fun k k2 => hg (f k) (f k2))

theorem applyFlag_keepsOrSets {α : Type} {π : CSoundKeeper → α} (hπ : FieldLike π)
    (ty : Char) (v : Double) : KeepsOrSets π (fun k => applyFlag ty v k) := by
  unfold applyFlag
  split_ifs
  · exact hπ.freq _
  · exact hπ.amp _
  · exact hπ.play _
  · exact hπ.wait _
  · exact hπ.fad _
  · exact KeepsOrSets.id π

theorem resetStream_keepsOrSets {α : Type} {π : CSoundKeeper → α} (hπ : FieldLike π)
    (ty : KeepStreamType) : KeepsOrSets π (fun k => resetStream k ty) := by
  unfold resetStream
  exact (((hπ.str ty).comp (hπ.freq _)).comp (hπ.amp _)).comp (hπ.fad _)

theorem scan_keepsOrSets {α : Type} {π : CSoundKeeper → α} (hπ : FieldLike π) :
    ∀ (n : Nat) (p : List Char), p.length ≤ n → KeepsOrSets π (fun k => scan k p) := by
  intro n
  induction n with
  | zero =>
      intro p hp
      have : p = [] := List.length_eq_zero.mp (Nat.le_zero.mp hp)
      subst this
      simp only [scan_nil]
      exact KeepsOrSets.id π
  | succ n ih =>
      intro p hp
      cases p with
      | nil =>
          simp only [scan_nil]
          exact KeepsOrSets.id π
      | cons c r =>
          have hr : r.length ≤ n := by simpa using hp
          by_cases hc : c = ' ' ∨ c = '-'
          · simp only [scan_skip _ c r hc]
            exact ih r hr
          · cases hf : isFlag c
            · simp only [scan_stop _ c r hc hf]
              exact KeepsOrSets.id π
            · simp only [scan_flag _ c r hf]
              refine (applyFlag_keepsOrSets hπ c _).comp (ih _ ?_)
              have h1 := strtod_length_le (List.dropWhile (fun x => x = ' ' || x = '=') r)
              have h2 : (List.dropWhile (fun x => decide (x = ' ') || decide (x = '=')) r).length
                  ≤ r.length := (List.dropWhile_suffix _).length_le
              omega

theorem deviceStep_keepsOrSets {α : Type} {π : CSoundKeeper → α} (hπ : FieldLike π)
    (buf : List Char) : KeepsOrSets π (fun k => deviceStep k buf) := by
  unfold deviceStep
  dsimp only
  have hite : ∀ (b : Prop) [Decidable b] (d : KeepDeviceType),
      KeepsOrSets π (fun k => if b then k.SetDeviceType d else k) := by
    intro b _ d
    by_cases hb : b
    · simp only [if_pos hb]; exact hπ.dev d
    · simp only [if_neg hb]; exact KeepsOrSets.id π
  exact (((hite _ KeepDeviceType.All).comp (hite _ KeepDeviceType.Analog)).comp
    (hite _ KeepDeviceType.Digital)).comp (hite _ KeepDeviceType.None)

theorem streamStep_keepsOrSets {α : Type} {π : CSoundKeeper → α} (hπ : FieldLike π)
    (buf : List Char) : KeepsOrSets π (fun k => streamStep k buf) := by
  unfold streamStep
  split
  · exact hπ.str _
  · split
    · exact (resetStream_keepsOrSets hπ _).comp (scan_keepsOrSets hπ _ _ (Nat.le_refl _))
    · split
      · exact (resetStream_keepsOrSets hπ _).comp (scan_keepsOrSets hπ _ _ (Nat.le_refl _))
      · exact KeepsOrSets.id π

/-- Both parts of `ParseMode` together keep or set each field-like component. -/
theorem resolve_keepsOrSets {α : Type} {π : CSoundKeeper → α} (hπ : FieldLike π)
    (buf : List Char) : KeepsOrSets π (fun k => streamStep (deviceStep k buf) buf) :=
  (deviceStep_keepsOrSets hπ buf).comp (streamStep_keepsOrSets hπ buf)

theorem fieldLike_deviceType : FieldLike (fun k => k.deviceType) :=
  ⟨fun _ => Or.inr (fun _ _ => rfl), fun _ => Or.inl (fun _ => rfl),
   fun _ => Or.inl (fun _ => rfl), fun _ => Or.inl (fun _ => rfl),
   fun _ => Or.inl (fun _ => rfl), fun _ => Or.inl (fun _ => rfl),
   fun _ => Or.inl (fun _ => rfl)⟩

theorem fieldLike_streamType : FieldLike (fun k => k.streamType) :=
  ⟨fun _ => Or.inl (fun _ => rfl), fun _ => Or.inr (fun _ _ => rfl),
   fun _ => Or.inl (fun _ => rfl), fun _ => Or.inl (fun _ => rfl),
   fun _ => Or.inl (fun _ => rfl), fun _ => Or.inl (fun _ => rfl),
   fun _ => Or.inl (fun _ => rfl)⟩

theorem fieldLike_frequency : FieldLike (fun k => k.frequency) :=
  ⟨fun _ => Or.inl (fun _ => rfl), fun _ => Or.inl (fun _ => rfl),
   fun _ => Or.inr (fun _ _ => rfl), fun _ => Or.inl (fun _ => rfl),
   fun _ => Or.inl (fun _ => rfl), fun _ => Or.inl (fun _ => rfl),
   fun _ => Or.inl (fun _ => rfl)⟩

theorem fieldLike_amplitude : FieldLike (fun k => k.amplitude) :=
  ⟨fun _ => Or.inl (fun _ => rfl), fun _ => Or.inl (fun _ => rfl),
   fun _ => Or.inl (fun _ => rfl), fun _ => Or.inr (fun _ _ => rfl),
   fun _ => Or.inl (fun _ => rfl), fun _ => Or.inl (fun _ => rfl),
   fun _ => Or.inl (fun _ => rfl)⟩

theorem fieldLike_fading : FieldLike (fun k => k.fading) :=
  ⟨fun _ => Or.inl (fun _ => rfl), fun _ => Or.inl (fun _ => rfl),
   fun _ => Or.inl (fun _ => rfl), fun _ => Or.inl (fun _ => rfl),
   fun _ => Or.inr (fun _ _ => rfl), fun _ => Or.inl (fun _ => rfl),
   fun _ => Or.inl (fun _ => rfl)⟩

theorem fieldLike_periodicPlaying : FieldLike (fun k => k.periodicPlaying) :=
  ⟨fun _ => Or.inl (fun _ => rfl), fun _ => Or.inl (fun _ => rfl),
   fun _ => Or.inl (fun _ => rfl), fun _ => Or.inl (fun _ => rfl),
   fun _ => Or.inl (fun _ => rfl), fun _ => Or.inr (fun _ _ => rfl),
   fun _ => Or.inl (fun _ => rfl)⟩

theorem fieldLike_periodicWaiting : FieldLike (fun k => k.periodicWaiting) :=
  ⟨fun _ => Or.inl (fun _ => rfl), fun _ => Or.inl (fun _ => rfl),
   fun _ => Or.inl (fun _ => rfl), fun _ => Or.inl (fun _ => rfl),
   fun _ => Or.inl (fun _ => rfl), fun _ => Or.inl (fun _ => rfl),
   fun _ => Or.inr (fun _ _ => rfl)⟩

theorem keeper_ext (a b : CSoundKeeper) (h1 : a.deviceType = b.deviceType)
    (h2 : a.streamType = b.streamType) (h3 : a.frequency = b.frequency)
    (h4 : a.amplitude = b.amplitude) (h5 : a.fading = b.fading)
    (h6 : a.periodicPlaying = b.periodicPlaying)
    (h7 : a.periodicWaiting = b.periodicWaiting) : a = b := by
  cases a
  cases b
  simp only [CSoundKeeper.mk.injEq]
  exact ⟨h1, h2, h3, h4, h5, h6, h7⟩

/-- C5. For texts that fit the buffer, the second pass acts on the
configuration as a function `f` that, for each of the seven fields, either
keeps the field of every configuration as it was or gives it a value that does
not depend on the configuration; so after the pass on `t1` and then the pass on
`t2`, every field that `t2` sets has the value `t2` alone dictates and every
other field has the value the first pass left. -/
theorem ParseMode_second_pass (t1 t2 : List Char) (h1 : t1.length < MAX_PATH)
    (h2 : t2.length < MAX_PATH) :
    ∃ f : CSoundKeeper → CSoundKeeper, (∀ c, ParseMode c t2 = Except.ok (f c)) ∧
      (∀ c, ∃ c1, ParseMode c t1 = Except.ok c1 ∧ ParseMode c1 t2 = Except.ok (f c1)) ∧
      KeepsOrSets (fun k => k.deviceType) f ∧
      KeepsOrSets (fun k => k.streamType) f ∧
      KeepsOrSets (fun k => k.frequency) f ∧
      KeepsOrSets (fun k => k.amplitude) f ∧
      KeepsOrSets (fun k => k.fading) f ∧
      KeepsOrSets (fun k => k.periodicPlaying) f ∧
      KeepsOrSets (fun k => k.periodicWaiting) f :=
  ⟨fun c => streamStep (deviceStep c (t2.map Char.toLower)) (t2.map Char.toLower),
    fun c => ParseMode_eq c t2 h2,
    fun c => ⟨_, ParseMode_eq c t1 h1, ParseMode_eq _ t2 h2⟩,
    resolve_keepsOrSets fieldLike_deviceType _, resolve_keepsOrSets fieldLike_streamType _,
    resolve_keepsOrSets fieldLike_frequency _, resolve_keepsOrSets fieldLike_amplitude _,
    resolve_keepsOrSets fieldLike_fading _, resolve_keepsOrSets fieldLike_periodicPlaying _,
    resolve_keepsOrSets fieldLike_periodicWaiting _⟩

/-- C5, on the first-pass text "all sine l=5" and the second-pass text
"noise f=3". -/
theorem ParseMode_second_pass_witness :
    "all sine l=5".toList.length < MAX_PATH ∧ "noise f=3".toList.length < MAX_PATH ∧
    ∃ f : CSoundKeeper → CSoundKeeper,
      (∀ c, ParseMode c "noise f=3".toList = Except.ok (f c)) ∧
      (∀ c, ∃ c1, ParseMode c "all sine l=5".toList = Except.ok c1 ∧
        ParseMode c1 "noise f=3".toList = Except.ok (f c1)) ∧
      KeepsOrSets (fun k => k.deviceType) f ∧
      KeepsOrSets (fun k => k.streamType) f ∧
      KeepsOrSets (fun k => k.frequency) f ∧
      KeepsOrSets (fun k => k.amplitude) f ∧
      KeepsOrSets (fun k => k.fading) f ∧
      KeepsOrSets (fun k => k.periodicPlaying) f ∧
      KeepsOrSets (fun k => k.periodicWaiting) f :=
  ⟨by decide, by decide,
    ParseMode_second_pass "all sine l=5".toList "noise f=3".toList (by decide) (by decide)⟩

/-- C6. On every text that fits the buffer, resolving the text a second time
against the result of the first time gives that result again. -/
theorem ParseMode_idempotent (c : CSoundKeeper) (t : List Char) (h : t.length < MAX_PATH) :
    ∃ r, ParseMode c t = Except.ok r ∧ ParseMode r t = Except.ok r := by
  refine ⟨_, ParseMode_eq c t h, ?_⟩
  rw [ParseMode_eq _ t h]
  have key : ∀ {α : Type} (π : CSoundKeeper → α), FieldLike π →
      π (streamStep (deviceStep (streamStep (deviceStep c (t.map Char.toLower))
        (t.map Char.toLower)) (t.map Char.toLower)) (t.map Char.toLower)) =
      π (streamStep (deviceStep c (t.map Char.toLower)) (t.map Char.toLower)) := by
    intro α π hπ
    rcases resolve_keepsOrSets hπ (t.map Char.toLower) with hk | hk
    · exact hk _
    · exact hk _ _
  exact congrArg Except.ok (keeper_ext _ _ (key _ fieldLike_deviceType)
    (key _ fieldLike_streamType) (key _ fieldLike_frequency) (key _ fieldLike_amplitude)
    (key _ fieldLike_fading) (key _ fieldLike_periodicPlaying)
    (key _ fieldLike_periodicWaiting))

/-- C6, on the text "all sine l=5 w=2" and the sample configuration. -/
theorem ParseMode_idempotent_witness :
    "all sine l=5 w=2".toList.length < MAX_PATH ∧
    ∃ r, ParseMode sampleKeeper "all sine l=5 w=2".toList = Except.ok r ∧
      ParseMode r "all sine l=5 w=2".toList = Except.ok r :=
  ⟨by decide, ParseMode_idempotent sampleKeeper "all sine l=5 w=2".toList (by decide)⟩

/-! ### A scan that meets no flag -/

/-- When the first character after the leading spaces and hyphens is not a
flag letter (or there is none), the scan changes nothing. -/
theorem scan_no_flag (k : CSoundKeeper) (p : List Char)
    (h : ∀ x, (p.dropWhile (fun c => c = ' ' || c = '-')).head? = some x → isFlag x = false) :
    scan k p = k := by
  induction p with
  | nil => exact scan_nil k
  | cons c r ih =>
      by_cases hc : c = ' ' ∨ c = '-'
      · rw [scan_skip k c r hc]
        apply ih
        intro x hx
        apply h x
        rw [List.dropWhile_cons_of_pos (by simpa using hc)]
        exact hx
      · apply scan_stop k c r hc
        apply h c
        rw [List.dropWhile_cons_of_neg (by simpa using hc)]
        rfl

theorem head_dropWhile_mem (q : Char → Bool) (p : List Char) (x : Char)
    (h : (p.dropWhile q).head? = some x) : x ∈ p := by
  have h1 : x ∈ p.dropWhile q := List.mem_of_mem_head? h
  exact (List.dropWhile_suffix q).subset h1

theorem strstr_self_append (kw rest : List Char) (hne : kw ≠ []) :
    strstr (kw ++ rest) kw = some (kw ++ rest) := by
  have h := strstr_first [] kw rest hne (by
    intro hi
    have h1 := hi.length_le
    have h2 : 0 < kw.length := List.length_pos.mpr hne
    simp only [List.nil_append, List.length_dropLast] at h1
    omega)
  simpa using h

theorem resetStream_fields (k : CSoundKeeper) (ty : KeepStreamType) :
    (resetStream k ty).streamType = ty ∧
    (resetStream k ty).frequency = Double.fin 1 ∧
    (resetStream k ty).amplitude = Double.fin (1 / 100) ∧
    (resetStream k ty).fading = Double.fin (1 / 10) ∧
    (resetStream k ty).periodicPlaying = k.periodicPlaying ∧
    (resetStream k ty).periodicWaiting = k.periodicWaiting ∧
    (resetStream k ty).deviceType = k.deviceType :=
  ⟨rfl, rfl, rfl, rfl, rfl, rfl, rfl⟩

/-- The result of a stream directive whose scan meets no flag. -/
theorem bare_stream_fields (c : CSoundKeeper) (buf : List Char) (ty : KeepStreamType) :
    (resetStream (deviceStep c buf) ty).streamType = ty ∧
    (resetStream (deviceStep c buf) ty).frequency = Double.fin 1 ∧
    (resetStream (deviceStep c buf) ty).amplitude = Double.fin (1 / 100) ∧
    (resetStream (deviceStep c buf) ty).fading = Double.fin (1 / 10) ∧
    (resetStream (deviceStep c buf) ty).periodicPlaying = c.periodicPlaying ∧
    (resetStream (deviceStep c buf) ty).periodicWaiting = c.periodicWaiting := by
  obtain ⟨-, -, -, -, h5, h6⟩ := deviceStep_rest c buf
  obtain ⟨r1, r2, r3, r4, r5, r6, -⟩ := resetStream_fields (deviceStep c buf) ty
  exact ⟨r1, r2, r3, r4, r5.trans h5, r6.trans h6⟩

/-- C9. On every text that fits the buffer and whose lowercased form L
contains neither "zero" nor "null": when the stream keyword that wins ("sine"
at its first occurrence, or "noise" at its first occurrence when L has no
"sine") is followed by no flag letter at all, the result has frequency 1,
amplitude 0.01 and fading 0.1 whatever the configuration held, and the two
periodic fields are those of the configuration. -/
theorem ParseMode_bare_stream (c : CSoundKeeper) (t pre rest : List Char)
    (ty : KeepStreamType) (h : t.length < MAX_PATH)
    (hz : ¬ [ 'z', 'e', 'r', 'o'] <:+: t.map Char.toLower)
    (hn : ¬ [ 'n', 'u', 'l', 'l'] <:+: t.map Char.toLower)
    (hwin : (ty = KeepStreamType.Sine ∧
        t.map Char.toLower = pre ++ [ 's', 'i', 'n', 'e'] ++ rest ∧
        ¬ [ 's', 'i', 'n', 'e'] <:+: pre ++ [ 's', 'i', 'n']) ∨
      (ty = KeepStreamType.WhiteNoise ∧
        ¬ [ 's', 'i', 'n', 'e'] <:+: t.map Char.toLower ∧
        t.map Char.toLower = pre ++ [ 'n', 'o', 'i', 's', 'e'] ++ rest ∧
        ¬ [ 'n', 'o', 'i', 's', 'e'] <:+: pre ++ [ 'n', 'o', 'i', 's']))
    (hrest : ∀ x ∈ rest, x ≠ 'f' ∧ x ≠ 'a' ∧ x ≠ 'l' ∧ x ≠ 'w' ∧ x ≠ 't') :
    ∃ r, ParseMode c t = Except.ok r ∧ r.streamType = ty ∧
      r.frequency = Double.fin 1 ∧ r.amplitude = Double.fin (1 / 100) ∧
      r.fading = Double.fin (1 / 10) ∧
      r.periodicPlaying = c.periodicPlaying ∧ r.periodicWaiting = c.periodicWaiting := by
  refine ⟨_, ParseMode_eq c t h, ?_⟩
  have hscan : ∀ k, scan k rest = k := by
    intro k
    apply scan_no_flag
    intro x hx
    obtain ⟨a1, a2, a3, a4, a5⟩ := hrest x (head_dropWhile_mem _ _ _ hx)
    simp [isFlag, a1, a2, a3, a4, a5]
  rcases hwin with ⟨rfl, hL, hfirst⟩ | ⟨rfl, hs, hL, hfirst⟩
  · have hp := strstr_first pre [ 's', 'i', 'n', 'e'] rest (by simp) hfirst
    rw [← hL] at hp
    rw [streamStep_sine _ _ hz hn _ hp]
    have hd : List.drop 4 ([ 's', 'i', 'n', 'e'] ++ rest) = rest := rfl
    rw [hd, hscan]
    exact bare_stream_fields c _ _
  · have hp := strstr_first pre [ 'n', 'o', 'i', 's', 'e'] rest (by simp) hfirst
    rw [← hL] at hp
    rw [streamStep_noise _ _ hz hn hs _ hp]
    have hd : List.drop 5 ([ 'n', 'o', 'i', 's', 'e'] ++ rest) = rest := rfl
    rw [hd, hscan]
    exact bare_stream_fields c _ _

/-- C9, on the text "noise" and the sample configuration, whose periodic
fields are 3 and 4. -/
theorem ParseMode_bare_stream_witness :
    "noise".toList.length < MAX_PATH ∧
    ¬ [ 'z', 'e', 'r', 'o'] <:+: "noise".toList.map Char.toLower ∧
    ¬ [ 'n', 'u', 'l', 'l'] <:+: "noise".toList.map Char.toLower ∧
    ¬ [ 's', 'i', 'n', 'e'] <:+: "noise".toList.map Char.toLower ∧
    ¬ [ 'n', 'o', 'i', 's', 'e'] <:+: [] ++ [ 'n', 'o', 'i', 's'] ∧
    ∃ r, ParseMode sampleKeeper "noise".toList = Except.ok r ∧
      r.streamType = KeepStreamType.WhiteNoise ∧
      r.frequency = Double.fin 1 ∧ r.amplitude = Double.fin (1 / 100) ∧
      r.fading = Double.fin (1 / 10) ∧
      r.periodicPlaying = sampleKeeper.periodicPlaying ∧
      r.periodicWaiting = sampleKeeper.periodicWaiting :=
  ⟨by decide, by decide, by decide, by decide, by decide,
    ParseMode_bare_stream sampleKeeper "noise".toList [] [] KeepStreamType.WhiteNoise
      (by decide) (by decide) (by decide)
      (Or.inr ⟨rfl, by decide, by decide, by decide⟩) (by decide)⟩

/-- C10, at a text of `MAX_PATH` characters: `strcpy_s` cannot copy it into
`buf[MAX_PATH]`, so `ParseMode` does not return; the invalid parameter handler
ends the process. -/
theorem ParseMode_long_text (c : CSoundKeeper) :
    ParseMode c (List.replicate 260 'x') = Except.error Fault.invalidParameter := by
  have hlen : MAX_PATH ≤ (List.replicate 260 'x').length := by
    rw [List.length_replicate]
    exact Nat.le_refl 260
  unfold ParseMode
  rw [if_pos hlen]

/-- `ParseMode` returns exactly on the texts shorter than `MAX_PATH`. -/
theorem ParseMode_returns_iff (c : CSoundKeeper) (t : List Char) :
    (∃ r, ParseMode c t = Except.ok r) ↔ t.length < MAX_PATH := by
  constructor
  · rintro ⟨r, hr⟩
    by_contra hlen
    unfold ParseMode at hr
    rw [if_pos (Nat.not_lt.mp hlen)] at hr
    cases hr
  · intro h
    exact ⟨_, ParseMode_eq c t h⟩

/-! ### `strtod` on decimal numerals -/

theorem isDigit_cases (d : Char) (h : d.isDigit = true) :
    d = '0' ∨ d = '1' ∨ d = '2' ∨ d = '3' ∨ d = '4' ∨ d = '5' ∨ d = '6' ∨ d = '7' ∨
      d = '8' ∨ d = '9' := by
  have h0 : d = Char.ofNat d.toNat := (Char.ofNat_toNat d).symm
  simp only [Char.isDigit, Bool.and_eq_true, decide_eq_true_eq] at h
  have h1 : 48 ≤ d.toNat := h.1
  have h2 : d.toNat ≤ 57 := h.2
  generalize d.toNat = n at h0 h1 h2
  subst h0
  interval_cases n <;> decide

/-- What the parser needs to know about a decimal digit. -/
theorem digit_facts (d : Char) (h : d.isDigit = true) :
    isspace d = false ∧ d ≠ '-' ∧ d ≠ '+' ∧ d ≠ ' ' ∧ d ≠ '=' ∧ d ≠ '.' ∧ d.toLower = d ∧
      d ≠ 'i' ∧ d ≠ 'n' ∧ d ≠ 'x' ∧ d ≠ 'e' ∧ isFlag d = false := by
  rcases isDigit_cases d h with h | h | h | h | h | h | h | h | h | h <;> subst h <;> decide

theorem natOfDigits_concat (ds : List Char) (c : Char) :
    natOfDigits (ds ++ [c]) = 10 * natOfDigits ds + digitVal c := by
  simp [natOfDigits, List.foldl_append]

theorem natOfDigits_eq_ofDigits (ds : List Char) :
    natOfDigits ds = Nat.ofDigits 10 (ds.reverse.map (fun c => c.toNat - 48)) := by
  induction ds using List.reverseRecOn with
  | nil => rfl
  | append_singleton ds c ih =>
      rw [natOfDigits_concat, ih, List.reverse_append, List.reverse_singleton,
        List.singleton_append, List.map_cons, Nat.ofDigits_cons]
      simp only [digitVal]
      ring

theorem readSign_of_head (s : List Char) (h1 : s.head? ≠ some '-') (h2 : s.head? ≠ some '+') :
    readSign s = (false, s) := by
  unfold readSign
  split
  · simp at h1
  · simp at h2
  · rfl

theorem span_of_head (q : Char → Bool) (l : List Char)
    (h : ∀ x, l.head? = some x → q x = false) :
    l.takeWhile q = [] ∧ l.dropWhile q = l := by
  cases l with
  | nil => simp
  | cons a t =>
      have ha : q a = false := h a rfl
      simp [List.takeWhile_cons, List.dropWhile_cons, ha]

theorem span_append (q : Char → Bool) (l1 l2 : List Char) (h1 : l1.all q = true)
    (h2 : ∀ x, l2.head? = some x → q x = false) :
    (l1 ++ l2).takeWhile q = l1 ∧ (l1 ++ l2).dropWhile q = l2 := by
  have ha : ∀ a ∈ l1, q a = true := by simpa using h1
  obtain ⟨e1, e2⟩ := span_of_head q l2 h2
  rw [List.takeWhile_append_of_pos ha, List.dropWhile_append_of_pos ha, e1, e2]
  simp

theorem parseSpecial_digit (d : Char) (r : List Char) (h : d.isDigit = true) :
    parseSpecial (d :: r) = none := by
  obtain ⟨-, -, -, -, -, -, hl, hi, hn, -, -, -⟩ := digit_facts d h
  unfold parseSpecial
  simp [List.isPrefixOf, hl, Ne.symm hi, Ne.symm hn]

theorem parseHex_of_second (d : Char) (r : List Char)
    (h : ∀ x, r.head? = some x → x.toLower ≠ 'x') : parseHex (d :: r) = none := by
  unfold parseHex
  split
  · rename_i x t heq
    simp only [List.cons.injEq] at heq
    have hx := h x (by rw [heq.2]; rfl)
    simp [hx]
  · rfl

theorem readExponent_of_head (m : Char) (s : List Char)
    (h : ∀ x, s.head? = some x → x.toLower ≠ m) : readExponent m s = (0, s) := by
  unfold readExponent
  split
  · rfl
  · rename_i c r
    have hc := h c rfl
    simp [hc]


theorem readMantissa_whole (q : Char → Bool) (ip rest : List Char) (h1 : ip.all q = true)
    (h2 : ∀ x, rest.head? = some x → q x = false ∧ x ≠ '.') :
    readMantissa q (ip ++ rest) = (ip, [], rest) := by
  obtain ⟨e1, e2⟩ := span_append q ip rest h1 (fun x hx => (h2 x hx).1)
  unfold readMantissa
  rw [e1, e2]
  split
  · exact absurd rfl (h2 '.' rfl).2
  · rfl

theorem readMantissa_point (q : Char → Bool) (ip fp rest : List Char) (hq : q '.' = false)
    (h1 : ip.all q = true) (h2 : fp.all q = true)
    (h3 : ∀ x, rest.head? = some x → q x = false) :
    readMantissa q (ip ++ '.' :: (fp ++ rest)) = (ip, fp, rest) := by
  obtain ⟨e1, e2⟩ := span_append q ip ( '.' :: (fp ++ rest)) h1
    (fun x hx => by simp only [List.head?_cons, Option.some.injEq] at hx; rw [← hx]; exact hq)
  obtain ⟨e3, e4⟩ := span_append q fp rest h2 h3
  unfold readMantissa
  rw [e1, e2]
  show (ip, List.takeWhile q (fp ++ rest), List.dropWhile q (fp ++ rest)) = (ip, fp, rest)
  rw [e3, e4]

/-- What must follow a numeral for `strtod` to stop right after it. -/
theorem ends_number_nil :
    ∀ x, ([] : List Char).head? = some x →
      x.isDigit = false ∧ x ≠ '.' ∧ x.toLower ≠ 'e' ∧ x.toLower ≠ 'x' := by
  intro x hx
  simp at hx

theorem ends_number_space (r : List Char) :
    ∀ x, ( ' ' :: r).head? = some x →
      x.isDigit = false ∧ x ≠ '.' ∧ x.toLower ≠ 'e' ∧ x.toLower ≠ 'x' := by
  intro x hx
  simp only [List.head?_cons, Option.some.injEq] at hx
  subst hx
  decide

theorem parseDecimal_numeral (n : Numeral) (hn : n.Valid) (rest : List Char)
    (hrest : ∀ x, rest.head? = some x →
      x.isDigit = false ∧ x ≠ '.' ∧ x.toLower ≠ 'e' ∧ x.toLower ≠ 'x') :
    parseDecimal (n.text ++ rest) = some (Double.fin n.value, rest) := by
  obtain ⟨hne, hip, hfp⟩ := hn
  have hexp := readExponent_of_head 'e' rest (fun x hx => (hrest x hx).2.2.1)
  have hm : readMantissa Char.isDigit (n.text ++ rest) = (n.ip, n.fp, rest) := by
    unfold Numeral.text
    by_cases h0 : n.fp = []
    · rw [if_pos h0, List.append_nil, h0]
      exact readMantissa_whole _ _ _ hip (fun x hx => ⟨(hrest x hx).1, (hrest x hx).2.1⟩)
    · rw [if_neg h0, List.append_assoc, List.cons_append]
      exact readMantissa_point _ _ _ _ (by decide) hip hfp (fun x hx => (hrest x hx).1)
  unfold parseDecimal
  dsimp only
  rw [hm]
  dsimp only
  rw [if_neg (fun h => hne h.1), hexp]
  dsimp only
  rw [natOfDigits_eq_ofDigits, zpow_zero, mul_one]
  rfl

theorem text_cons (n : Numeral) (hn : n.Valid) (rest : List Char)
    (hrest : ∀ x, rest.head? = some x →
      x.isDigit = false ∧ x ≠ '.' ∧ x.toLower ≠ 'e' ∧ x.toLower ≠ 'x') :
    ∃ d r, n.text ++ rest = d :: r ∧ d.isDigit = true ∧
      ∀ x, r.head? = some x → x.toLower ≠ 'x' := by
  obtain ⟨hne, hip, hfp⟩ := hn
  obtain ⟨d, ip2, hd⟩ := List.exists_cons_of_ne_nil hne
  have hall : ∀ a ∈ n.ip, a.isDigit = true := by simpa using hip
  have hdd : d.isDigit = true := hall d (by rw [hd]; exact List.mem_cons_self _ _)
  refine ⟨d, ip2 ++ ((if n.fp = [] then [] else '.' :: n.fp) ++ rest), ?_, hdd, ?_⟩
  · unfold Numeral.text
    rw [hd]
    simp
  · intro x hx
    cases ip2 with
    | cons a t =>
        simp only [List.cons_append, List.head?_cons, Option.some.injEq] at hx
        have ha : a.isDigit = true := hall a (by rw [hd]; simp)
        obtain ⟨-, -, -, -, -, -, hl, -, -, hx2, -, -⟩ := digit_facts a ha
        rw [← hx, hl]
        exact hx2
    | nil =>
        by_cases h0 : n.fp = []
        · rw [if_pos h0] at hx
          exact (hrest x (by simpa using hx)).2.2.2
        · rw [if_neg h0] at hx
          simp only [List.nil_append, List.cons_append, List.head?_cons,
            Option.some.injEq] at hx
          rw [← hx]
          decide

/-- On a numeral followed by a character that cannot continue a number (or by
the end of the text), `strtod` returns the value of the numeral and the cursor
right after it. -/
theorem strtod_numeral (n : Numeral) (hn : n.Valid) (rest : List Char)
    (hrest : ∀ x, rest.head? = some x →
      x.isDigit = false ∧ x ≠ '.' ∧ x.toLower ≠ 'e' ∧ x.toLower ≠ 'x') :
    strtod (n.text ++ rest) = (Double.fin n.value, rest) := by
  have hdec := parseDecimal_numeral n hn rest hrest
  obtain ⟨d, r, htext, hd, hsecond⟩ := text_cons n hn rest hrest
  rw [htext] at hdec ⊢
  obtain ⟨hsp, hm, hp, -⟩ := digit_facts d hd
  have hdrop : (d :: r).dropWhile isspace = d :: r :=
    List.dropWhile_cons_of_neg (by simp [hsp])
  have hsign : readSign (d :: r) = (false, d :: r) :=
    readSign_of_head _ (by simpa using hm) (by simpa using hp)
  have hmag : parseMagnitude (d :: r) = some (Double.fin n.value, rest) := by
    unfold parseMagnitude
    rw [parseSpecial_digit d r hd, parseHex_of_second d r hsecond]
    exact hdec
  unfold strtod
  dsimp only
  rw [hdrop, hsign]
  dsimp only
  rw [hmag]
  rfl

/-! ### Flags with numerals -/

theorem value_nonneg (n : Numeral) : 0 ≤ n.value := by
  unfold Numeral.value
  positivity

theorem stdMin_fin (a b : ℚ) : stdMin (Double.fin a) (Double.fin b) = Double.fin (min a b) := by
  unfold stdMin Double.lt
  by_cases h : b < a
  · simp [h, min_eq_right (le_of_lt h)]
  · simp [h, min_eq_left (not_lt.mp h)]

theorem div_hundred (a : ℚ) :
    Double.div (Double.fin a) (Double.fin 100) = Double.fin (a / 100) := by
  unfold Double.div
  norm_num

/-- A flag letter, separators and a numeral: the scan applies the flag with the
value of the numeral and goes on after the numeral. -/
theorem scan_flag_numeral (k : CSoundKeeper) (ty : Char) (hty : isFlag ty = true)
    (seps : List Char) (hseps : ∀ x ∈ seps, x = ' ' ∨ x = '=')
    (n : Numeral) (hn : n.Valid) (rest : List Char)
    (hrest : ∀ x, rest.head? = some x →
      x.isDigit = false ∧ x ≠ '.' ∧ x.toLower ≠ 'e' ∧ x.toLower ≠ 'x') :
    scan k (ty :: (seps ++ (n.text ++ rest))) =
      scan (applyFlag ty (Double.fin n.value) k) rest := by
  obtain ⟨d, r, htext, hd, -⟩ := text_cons n hn rest hrest
  obtain ⟨-, -, -, hsp, heq, -⟩ := digit_facts d hd
  have hdrop : (seps ++ (n.text ++ rest)).dropWhile (fun x => x = ' ' || x = '=') =
      n.text ++ rest := by
    refine (span_append _ seps (n.text ++ rest) ?_ ?_).2
    · simp only [List.all_eq_true, Bool.or_eq_true, decide_eq_true_eq]
      exact hseps
    · intro x hx
      rw [htext] at hx
      simp only [List.head?_cons, Option.some.injEq] at hx
      subst hx
      simp [hsp, heq]
  rw [scan_flag k ty _ hty, hdrop, strtod_numeral n hn rest hrest]
  simp only [fabs, abs_of_nonneg (value_nonneg n)]

theorem text_mem (n : Numeral) (hn : n.Valid) (x : Char) (hx : x ∈ n.text) :
    x.isDigit = true ∨ x = '.' := by
  obtain ⟨-, hip, hfp⟩ := hn
  simp only [List.all_eq_true] at hip hfp
  unfold Numeral.text at hx
  rw [List.mem_append] at hx
  rcases hx with hx | hx
  · exact Or.inl (hip x hx)
  · by_cases h0 : n.fp = []
    · rw [if_pos h0] at hx
      simp at hx
    · rw [if_neg h0, List.mem_cons] at hx
      rcases hx with hx | hx
      · exact Or.inr hx
      · exact Or.inl (hfp x hx)

theorem text_lower (n : Numeral) (hn : n.Valid) : n.text.map Char.toLower = n.text := by
  have h : ∀ x ∈ n.text, Char.toLower x = x := by
    intro x hx
    rcases text_mem n hn x hx with hd | rfl
    · exact (digit_facts x hd).2.2.2.2.2.2.1
    · decide
  calc n.text.map Char.toLower = n.text.map id := List.map_congr_left h
    _ = n.text := List.map_id _

/-- A keyword that holds a character the text lacks does not occur in it. -/
theorem not_infix_of_mem (kw text : List Char) (x : Char) (hx : x ∈ kw) (hn : x ∉ text) :
    ¬ kw <:+: text :=
  fun h => hn (h.subset hx)

/-- An occurrence of a keyword in `lit ++ tail` lies in `lit` when the last
character of the keyword is not in `tail`. -/
theorem infix_of_last_not_mem (kw lit : List Char) (a : Char) (kw0 : List Char)
    (hkw : kw = kw0 ++ [a]) :
    ∀ tail : List Char, a ∉ tail → kw <:+: lit ++ tail → kw <:+: lit := by
  intro tail
  induction tail using List.reverseRecOn with
  | nil => intro _ h; simpa using h
  | append_singleton tl x ih =>
      intro ha h
      rw [← List.append_assoc, List.infix_concat_iff] at h
      have hax : a ≠ x := fun e => ha (by simp [e])
      have hat : a ∉ tl := fun e => ha (by simp [e])
      rcases h with h | h
      · exfalso
        obtain ⟨p, hp⟩ := h
        rw [hkw, ← List.append_assoc] at hp
        have := List.append_inj_right' hp rfl
        simp only [List.cons.injEq, and_true] at this
        exact hax this
      · exact ih hat h


theorem not_mem_text (n : Numeral) (hn : n.Valid) (x : Char) (h1 : x.isDigit = false)
    (h2 : x ≠ '.') : x ∉ n.text := by
  intro hx
  rcases text_mem n hn x hx with h | h
  · rw [h1] at h
    cases h
  · exact h2 h

theorem applyFlag_f (v : ℚ) (k : CSoundKeeper) :
    applyFlag 'f' (Double.fin v) k = k.SetFrequency (Double.fin (min v 96000)) := by
  unfold applyFlag
  rw [if_pos rfl, stdMin_fin]

theorem applyFlag_a (v : ℚ) (k : CSoundKeeper) :
    applyFlag 'a' (Double.fin v) k = k.SetAmplitude (Double.fin (min (v / 100) 1)) := by
  unfold applyFlag
  rw [if_neg (by decide), if_pos rfl, div_hundred, stdMin_fin]

theorem applyFlag_t (v : Double) (k : CSoundKeeper) :
    applyFlag 't' v k = k.SetFading v := by
  unfold applyFlag
  rw [if_neg (by decide), if_neg (by decide), if_neg (by decide), if_neg (by decide),
    if_pos rfl]

/-- C3. For all decimal numerals F, A, T such that the text
"sine f=F a=A t=T" fits the buffer, `ParseMode` on that text gives the stream
tag Sine, the frequency min(F, 96000), the amplitude min(A/100, 1) and the
fading T, and leaves the two periodic fields and the device tag as they
were. -/
theorem ParseMode_sine_flags (c : CSoundKeeper) (F A T : Numeral)
    (hF : F.Valid) (hA : A.Valid) (hT : T.Valid)
    (h : ([ 's', 'i', 'n', 'e', ' ', 'f', '='] ++ F.text ++ [ ' ', 'a', '='] ++ A.text ++
      [ ' ', 't', '='] ++ T.text).length < MAX_PATH) :
    ∃ r, ParseMode c ([ 's', 'i', 'n', 'e', ' ', 'f', '='] ++ F.text ++ [ ' ', 'a', '='] ++
        A.text ++ [ ' ', 't', '='] ++ T.text) = Except.ok r ∧
      r.streamType = KeepStreamType.Sine ∧
      r.frequency = Double.fin (min F.value 96000) ∧
      r.amplitude = Double.fin (min (A.value / 100) 1) ∧
      r.fading = Double.fin T.value ∧
      r.periodicPlaying = c.periodicPlaying ∧ r.periodicWaiting = c.periodicWaiting ∧
      r.deviceType = c.deviceType := by
  refine ⟨_, ParseMode_eq c _ h, ?_⟩
  have hlow : ([ 's', 'i', 'n', 'e', ' ', 'f', '='] ++ F.text ++ [ ' ', 'a', '='] ++ A.text ++
      [ ' ', 't', '='] ++ T.text).map Char.toLower =
      [ 's', 'i', 'n', 'e'] ++ ( ' ' :: 'f' :: ([ '='] ++ (F.text ++
        ( ' ' :: 'a' :: ([ '='] ++ (A.text ++ ( ' ' :: 't' :: ([ '='] ++ (T.text ++ []))))))))) := by
    simp only [List.map_append, text_lower F hF, text_lower A hA, text_lower T hT]
    simp
  rw [hlow]
  have hl : 'l' ∉ [ 's', 'i', 'n', 'e'] ++ ( ' ' :: 'f' :: ([ '='] ++ (F.text ++
        ( ' ' :: 'a' :: ([ '='] ++ (A.text ++ ( ' ' :: 't' :: ([ '='] ++ (T.text ++ []))))))))) := by
    have h1 := not_mem_text F hF 'l' (by decide) (by decide)
    have h2 := not_mem_text A hA 'l' (by decide) (by decide)
    have h3 := not_mem_text T hT 'l' (by decide) (by decide)
    simp [h1, h2, h3]
  have hzc : 'z' ∉ [ 's', 'i', 'n', 'e'] ++ ( ' ' :: 'f' :: ([ '='] ++ (F.text ++
        ( ' ' :: 'a' :: ([ '='] ++ (A.text ++ ( ' ' :: 't' :: ([ '='] ++ (T.text ++ []))))))))) := by
    have h1 := not_mem_text F hF 'z' (by decide) (by decide)
    have h2 := not_mem_text A hA 'z' (by decide) (by decide)
    have h3 := not_mem_text T hT 'z' (by decide) (by decide)
    simp [h1, h2, h3]
  rw [deviceStep_none c _ (not_infix_of_mem _ _ 'l' (by decide) hl)
      (not_infix_of_mem _ _ 'l' (by decide) hl) (not_infix_of_mem _ _ 'l' (by decide) hl)
      (not_infix_of_mem _ _ 'l' (by decide) hl),
    streamStep_sine c _ (not_infix_of_mem _ _ 'z' (by decide) hzc)
      (not_infix_of_mem _ _ 'l' (by decide) hl) _ (strstr_self_append _ _ (by simp))]
  have hd : ∀ l : List Char, List.drop 4 ([ 's', 'i', 'n', 'e'] ++ l) = l := fun _ => rfl
  have hsep : ∀ x ∈ [ '='], x = ' ' ∨ x = '=' := by simp
  rw [hd, scan_skip _ _ _ (Or.inl rfl),
    scan_flag_numeral _ 'f' (by decide) _ hsep F hF _ (ends_number_space _),
    scan_skip _ _ _ (Or.inl rfl),
    scan_flag_numeral _ 'a' (by decide) _ hsep A hA _ (ends_number_space _),
    scan_skip _ _ _ (Or.inl rfl),
    scan_flag_numeral _ 't' (by decide) _ hsep T hT _ ends_number_nil,
    scan_nil, applyFlag_f, applyFlag_a, applyFlag_t]
  exact ⟨rfl, rfl, rfl, rfl, rfl, rfl, rfl⟩


/-- C3, on the text "sine f=440 a=50 t=0.2" and the sample configuration (whose
periodic fields are 3 and 4 and whose device tag is Primary): frequency 440,
amplitude 0.5, fading 0.2. -/
theorem ParseMode_sine_flags_witness :
    (Numeral.mk [ '4', '4', '0'] []).Valid ∧ (Numeral.mk [ '5', '0'] []).Valid ∧
    (Numeral.mk [ '0'] [ '2']).Valid ∧
    "sine f=440 a=50 t=0.2".toList.length < MAX_PATH ∧
    ∃ r, ParseMode sampleKeeper "sine f=440 a=50 t=0.2".toList = Except.ok r ∧
      r.streamType = KeepStreamType.Sine ∧
      r.frequency = Double.fin 440 ∧
      r.amplitude = Double.fin (1 / 2) ∧
      r.fading = Double.fin (2 / 10) ∧
      r.periodicPlaying = Double.fin 3 ∧ r.periodicWaiting = Double.fin 4 ∧
      r.deviceType = KeepDeviceType.Primary := by
  refine ⟨by decide, by decide, by decide, by decide, ?_⟩
  obtain ⟨r, h0, h1, h2, h3, h4, h5, h6, h7⟩ :=
    ParseMode_sine_flags sampleKeeper (Numeral.mk [ '4', '4', '0'] []) (Numeral.mk [ '5', '0'] [])
      (Numeral.mk [ '0'] [ '2']) (by decide) (by decide) (by decide) (by decide)
  have e0 : '0'.toNat = 48 := rfl
  have e2 : '2'.toNat = 50 := rfl
  have e4 : '4'.toNat = 52 := rfl
  have e5 : '5'.toNat = 53 := rfl
  refine ⟨r, h0, h1, ?_, ?_, ?_, h5, h6, h7⟩
  · rw [h2]
    norm_num [Numeral.value, Nat.ofDigits, e0, e4]
  · rw [h3]
    norm_num [Numeral.value, Nat.ofDigits, e0, e5]
  · rw [h4]
    norm_num [Numeral.value, Nat.ofDigits, e0, e2]


/-- C8. For every decimal numeral A of value at least 100 such that the text
"noise aA" fits the buffer, `ParseMode` on that text gives the stream tag
WhiteNoise and the amplitude 1 (A/100 clamped), with frequency 1 and fading
0.1. -/
theorem ParseMode_noise_clamp (c : CSoundKeeper) (A : Numeral) (hA : A.Valid)
    (hv : 100 ≤ A.value)
    (h : ([ 'n', 'o', 'i', 's', 'e', ' ', 'a'] ++ A.text).length < MAX_PATH) :
    ∃ r, ParseMode c ([ 'n', 'o', 'i', 's', 'e', ' ', 'a'] ++ A.text) = Except.ok r ∧
      r.streamType = KeepStreamType.WhiteNoise ∧ r.amplitude = Double.fin 1 ∧
      r.frequency = Double.fin 1 ∧ r.fading = Double.fin (1 / 10) := by
  refine ⟨_, ParseMode_eq c _ h, ?_⟩
  have hlow : ([ 'n', 'o', 'i', 's', 'e', ' ', 'a'] ++ A.text).map Char.toLower =
      [ 'n', 'o', 'i', 's', 'e', ' ', 'a'] ++ A.text := by
    simp only [List.map_append, text_lower A hA]
    simp
  have hform : [ 'n', 'o', 'i', 's', 'e', ' ', 'a'] ++ A.text =
      [ 'n', 'o', 'i', 's', 'e'] ++ ( ' ' :: 'a' :: ([] ++ (A.text ++ []))) := by simp
  have hl : 'l' ∉ [ 'n', 'o', 'i', 's', 'e', ' ', 'a'] ++ A.text := by
    have h1 := not_mem_text A hA 'l' (by decide) (by decide)
    simp [h1]
  have hzc : 'z' ∉ [ 'n', 'o', 'i', 's', 'e', ' ', 'a'] ++ A.text := by
    have h1 := not_mem_text A hA 'z' (by decide) (by decide)
    simp [h1]
  have hs : ¬ [ 's', 'i', 'n', 'e'] <:+: [ 'n', 'o', 'i', 's', 'e', ' ', 'a'] ++ A.text := by
    intro hi
    have h1 := infix_of_last_not_mem _ _ 'e' [ 's', 'i', 'n'] rfl A.text
      (not_mem_text A hA 'e' (by decide) (by decide)) hi
    revert h1
    decide
  have hmin : min (A.value / 100) 1 = 1 := min_eq_right (by linarith)
  rw [hlow, streamStep_noise _ _ (not_infix_of_mem _ _ 'z' (by decide) hzc)
      (not_infix_of_mem _ _ 'l' (by decide) hl) hs ([ 'n', 'o', 'i', 's', 'e'] ++
        ( ' ' :: 'a' :: ([] ++ (A.text ++ []))))
      (by rw [hform]; exact strstr_self_append _ _ (by simp))]
  have hd : ∀ l : List Char, List.drop 5 ([ 'n', 'o', 'i', 's', 'e'] ++ l) = l := fun _ => rfl
  rw [hd, scan_skip _ _ _ (Or.inl rfl),
    scan_flag_numeral _ 'a' (by decide) [] (by simp) A hA _ ends_number_nil,
    scan_nil, applyFlag_a, hmin]
  exact ⟨rfl, rfl, rfl, rfl⟩

/-- C8, on the text "noise a200": the amplitude is 1. -/
theorem ParseMode_noise_clamp_witness :
    (Numeral.mk [ '2', '0', '0'] []).Valid ∧ 100 ≤ (Numeral.mk [ '2', '0', '0'] []).value ∧
    "noise a200".toList.length < MAX_PATH ∧
    ∃ r, ParseMode sampleKeeper "noise a200".toList = Except.ok r ∧
      r.streamType = KeepStreamType.WhiteNoise ∧ r.amplitude = Double.fin 1 ∧
      r.frequency = Double.fin 1 ∧ r.fading = Double.fin (1 / 10) := by
  have e0 : '0'.toNat = 48 := rfl
  have e2 : '2'.toNat = 50 := rfl
  have hv : 100 ≤ (Numeral.mk [ '2', '0', '0'] []).value := by
    norm_num [Numeral.value, Nat.ofDigits, e0, e2]
  exact ⟨by decide, hv, by decide,
    ParseMode_noise_clamp sampleKeeper (Numeral.mk [ '2', '0', '0'] []) (by decide) hv
      (by decide)⟩


/-- C7, as amended. Let `s` be a text whose lowercased form has, after its
leading spaces and hyphens, a first character that is not a flag letter (or no
character). If "sine" followed by `s` fits the buffer and its lowercased form
contains neither "zero" nor "null", `ParseMode` on it applies no flag:
frequency 1, amplitude 0.01, fading 0.1, periodic fields as they were. The
same holds for "noise" followed by `s` when, in addition, its lowercased form
does not contain "sine". -/
theorem ParseMode_unrecognised (c : CSoundKeeper) (s : List Char)
    (hfirst : ∀ x, ((s.map Char.toLower).dropWhile (fun y => y = ' ' || y = '-')).head? = some x →
      x ≠ 'f' ∧ x ≠ 'a' ∧ x ≠ 'l' ∧ x ≠ 'w' ∧ x ≠ 't') :
    (([ 's', 'i', 'n', 'e'] ++ s).length < MAX_PATH →
      ¬ [ 'z', 'e', 'r', 'o'] <:+: ([ 's', 'i', 'n', 'e'] ++ s).map Char.toLower →
      ¬ [ 'n', 'u', 'l', 'l'] <:+: ([ 's', 'i', 'n', 'e'] ++ s).map Char.toLower →
      ∃ r, ParseMode c ([ 's', 'i', 'n', 'e'] ++ s) = Except.ok r ∧
        r.streamType = KeepStreamType.Sine ∧
        r.frequency = Double.fin 1 ∧ r.amplitude = Double.fin (1 / 100) ∧
        r.fading = Double.fin (1 / 10) ∧
        r.periodicPlaying = c.periodicPlaying ∧ r.periodicWaiting = c.periodicWaiting) ∧
    (([ 'n', 'o', 'i', 's', 'e'] ++ s).length < MAX_PATH →
      ¬ [ 'z', 'e', 'r', 'o'] <:+: ([ 'n', 'o', 'i', 's', 'e'] ++ s).map Char.toLower →
      ¬ [ 'n', 'u', 'l', 'l'] <:+: ([ 'n', 'o', 'i', 's', 'e'] ++ s).map Char.toLower →
      ¬ [ 's', 'i', 'n', 'e'] <:+: ([ 'n', 'o', 'i', 's', 'e'] ++ s).map Char.toLower →
      ∃ r, ParseMode c ([ 'n', 'o', 'i', 's', 'e'] ++ s) = Except.ok r ∧
        r.streamType = KeepStreamType.WhiteNoise ∧
        r.frequency = Double.fin 1 ∧ r.amplitude = Double.fin (1 / 100) ∧
        r.fading = Double.fin (1 / 10) ∧
        r.periodicPlaying = c.periodicPlaying ∧ r.periodicWaiting = c.periodicWaiting) := by
  have hscan : ∀ k, scan k (s.map Char.toLower) = k := by
    intro k
    apply scan_no_flag
    intro x hx
    obtain ⟨a1, a2, a3, a4, a5⟩ := hfirst x hx
    simp [isFlag, a1, a2, a3, a4, a5]
  constructor
  · intro h hz hn
    refine ⟨_, ParseMode_eq c _ h, ?_⟩
    have hlow : ([ 's', 'i', 'n', 'e'] ++ s).map Char.toLower =
        [ 's', 'i', 'n', 'e'] ++ s.map Char.toLower := by
      rw [List.map_append]
      rfl
    rw [hlow] at hz hn ⊢
    rw [streamStep_sine _ _ hz hn _ (strstr_self_append _ _ (by simp))]
    have hd : List.drop 4 ([ 's', 'i', 'n', 'e'] ++ s.map Char.toLower) = s.map Char.toLower :=
      rfl
    rw [hd, hscan]
    exact bare_stream_fields c _ _
  · intro h hz hn hs
    refine ⟨_, ParseMode_eq c _ h, ?_⟩
    have hlow : ([ 'n', 'o', 'i', 's', 'e'] ++ s).map Char.toLower =
        [ 'n', 'o', 'i', 's', 'e'] ++ s.map Char.toLower := by
      rw [List.map_append]
      rfl
    rw [hlow] at hz hn hs ⊢
    rw [streamStep_noise _ _ hz hn hs _ (strstr_self_append _ _ (by simp))]
    have hd : List.drop 5 ([ 'n', 'o', 'i', 's', 'e'] ++ s.map Char.toLower) =
        s.map Char.toLower := rfl
    rw [hd, hscan]
    exact bare_stream_fields c _ _

/-- C7 as amended, on the text "sine xyz f=10": the frequency is 1, not 10. -/
theorem ParseMode_unrecognised_witness :
    (∀ x, ((" xyz f=10".toList.map Char.toLower).dropWhile
        (fun y => y = ' ' || y = '-')).head? = some x →
      x ≠ 'f' ∧ x ≠ 'a' ∧ x ≠ 'l' ∧ x ≠ 'w' ∧ x ≠ 't') ∧
    ([ 's', 'i', 'n', 'e'] ++ " xyz f=10".toList).length < MAX_PATH ∧
    ¬ [ 'z', 'e', 'r', 'o'] <:+: ([ 's', 'i', 'n', 'e'] ++ " xyz f=10".toList).map Char.toLower ∧
    ¬ [ 'n', 'u', 'l', 'l'] <:+: ([ 's', 'i', 'n', 'e'] ++ " xyz f=10".toList).map Char.toLower ∧
    ∃ r, ParseMode sampleKeeper "sine xyz f=10".toList = Except.ok r ∧
      r.streamType = KeepStreamType.Sine ∧
      r.frequency = Double.fin 1 ∧ r.amplitude = Double.fin (1 / 100) ∧
      r.fading = Double.fin (1 / 10) ∧
      r.periodicPlaying = sampleKeeper.periodicPlaying ∧
      r.periodicWaiting = sampleKeeper.periodicWaiting := by
  have hfirst : ∀ x, ((" xyz f=10".toList.map Char.toLower).dropWhile
        (fun y => y = ' ' || y = '-')).head? = some x →
      x ≠ 'f' ∧ x ≠ 'a' ∧ x ≠ 'l' ∧ x ≠ 'w' ∧ x ≠ 't' := by
    intro x hx
    have e : ((" xyz f=10".toList.map Char.toLower).dropWhile
        (fun y => y = ' ' || y = '-')).head? = some 'x' := by decide
    rw [e] at hx
    cases hx
    decide
  exact ⟨hfirst, by decide, by decide, by decide,
    (ParseMode_unrecognised sampleKeeper " xyz f=10".toList hfirst).1 (by decide) (by decide)
      (by decide)⟩

/-- C7 as stated fails on three texts, each with a first character after the
leading spaces that is not one of f, a, l, w, t. On "sine zero" the stream tag
becomes Zero and the frequency stays 50 (no reset to 1). On "sine F=10" the
lowercased F is read as the frequency flag: frequency 10. On "noise sine f=10"
the keyword "sine" wins and its flag is applied: frequency 10. -/
theorem ParseMode_unrecognised_counterexample :
    ((" zero".toList.dropWhile (fun y => y = ' ' || y = '-')).head? = some 'z' ∧
      ∃ r, ParseMode sampleKeeper "sine zero".toList = Except.ok r ∧
        r.streamType = KeepStreamType.Zero ∧ r.frequency = Double.fin 50 ∧
        r.frequency ≠ Double.fin 1) ∧
    ((" F=10".toList.dropWhile (fun y => y = ' ' || y = '-')).head? = some 'F' ∧
      ∃ r, ParseMode sampleKeeper "sine F=10".toList = Except.ok r ∧
        r.streamType = KeepStreamType.Sine ∧ r.frequency = Double.fin 10 ∧
        r.frequency ≠ Double.fin 1) ∧
    ((" sine f=10".toList.dropWhile (fun y => y = ' ' || y = '-')).head? = some 's' ∧
      ∃ r, ParseMode sampleKeeper "noise sine f=10".toList = Except.ok r ∧
        r.streamType = KeepStreamType.Sine ∧ r.frequency = Double.fin 10 ∧
        r.frequency ≠ Double.fin 1) := by
  have e0 : '0'.toNat = 48 := rfl
  have e1 : '1'.toNat = 49 := rfl
  have hten : min (Numeral.mk [ '1', '0'] []).value 96000 = 10 := by
    norm_num [Numeral.value, Nat.ofDigits, e0, e1]
  have hrun : ∀ k, scan (resetStream k KeepStreamType.Sine)
      ( ' ' :: 'f' :: ([ '='] ++ ((Numeral.mk [ '1', '0'] []).text ++ []))) =
      (resetStream k KeepStreamType.Sine).SetFrequency (Double.fin 10) := by
    intro k
    rw [scan_skip _ _ _ (Or.inl rfl),
      scan_flag_numeral _ 'f' (by decide) [ '='] (by simp) _ (by decide) _ ends_number_nil,
      scan_nil, applyFlag_f, hten]
  refine ⟨⟨by decide, _, ParseMode_eq _ _ (by decide), ?_⟩,
    ⟨by decide, _, ParseMode_eq _ _ (by decide), ?_⟩,
    ⟨by decide, _, ParseMode_eq _ _ (by decide), ?_⟩⟩
  · rw [streamStep_zero _ _ (Or.inl (by decide)),
      deviceStep_none _ _ (by decide) (by decide) (by decide) (by decide)]
    refine ⟨rfl, rfl, ?_⟩
    show Double.fin 50 ≠ Double.fin 1
    simp
  · rw [deviceStep_none _ _ (by decide) (by decide) (by decide) (by decide),
      streamStep_sine _ _ (by decide) (by decide) "sine f=10".toList (by decide)]
    have hd : List.drop 4 "sine f=10".toList =
        ' ' :: 'f' :: ([ '='] ++ ((Numeral.mk [ '1', '0'] []).text ++ [])) := by decide
    rw [hd, hrun]
    refine ⟨rfl, rfl, ?_⟩
    show Double.fin 10 ≠ Double.fin 1
    simp
  · rw [deviceStep_none _ _ (by decide) (by decide) (by decide) (by decide),
      streamStep_sine _ _ (by decide) (by decide) "sine f=10".toList (by decide)]
    have hd : List.drop 4 "sine f=10".toList =
        ' ' :: 'f' :: ([ '='] ++ ((Numeral.mk [ '1', '0'] []).text ++ [])) := by decide
    rw [hd, hrun]
    refine ⟨rfl, rfl, ?_⟩
    show Double.fin 10 ≠ Double.fin 1
    simp

/-! ### The range of the stream parameters -/

/-- A property of the configuration that every flag assignment keeps is kept
by the whole scan. -/
theorem scan_invariant (P : CSoundKeeper → Prop)
    (hP : ∀ ty v k, P k → P (applyFlag ty (fabs v) k)) :
    ∀ (n : Nat) (p : List Char), p.length ≤ n → ∀ k, P k → P (scan k p) := by
  intro n
  induction n with
  | zero =>
      intro p hp k hk
      have : p = [] := List.length_eq_zero.mp (Nat.le_zero.mp hp)
      rw [this, scan_nil]
      exact hk
  | succ n ih =>
      intro p hp k hk
      cases p with
      | nil => rw [scan_nil]; exact hk
      | cons c r =>
          have hr : r.length ≤ n := by simpa using hp
          by_cases hc : c = ' ' ∨ c = '-'
          · rw [scan_skip k c r hc]
            exact ih r hr k hk
          · cases hf : isFlag c
            · rw [scan_stop k c r hc hf]
              exact hk
            · rw [scan_flag k c r hf]
              refine ih _ ?_ _ (hP _ _ _ hk)
              have h1 := strtod_length_le (List.dropWhile (fun x => x = ' ' || x = '=') r)
              have h2 : (List.dropWhile (fun x => decide (x = ' ') || decide (x = '=')) r).length
                  ≤ r.length := (List.dropWhile_suffix _).length_le
              omega

theorem fabs_nonneg (v : Double) :
    fabs v = Double.nan ∨ Double.le (Double.fin 0) (fabs v) = true := by
  cases v with
  | fin q => right; simp [fabs, Double.le]
  | inf s => right; rfl
  | nan => left; rfl

theorem clamp_frequency (v : Double) :
    stdMin (fabs v) (Double.fin 96000) = Double.nan ∨
      (Double.le (Double.fin 0) (stdMin (fabs v) (Double.fin 96000)) = true ∧
        Double.le (stdMin (fabs v) (Double.fin 96000)) (Double.fin 96000) = true) := by
  cases v with
  | fin q =>
      right
      simp only [fabs, stdMin_fin, Double.le, decide_eq_true_eq]
      exact ⟨le_min (abs_nonneg q) (by norm_num), min_le_right _ _⟩
  | inf s =>
      right
      simp [fabs, stdMin, Double.lt, Double.le]
  | nan => left; rfl

theorem clamp_amplitude (v : Double) :
    stdMin (Double.div (fabs v) (Double.fin 100)) (Double.fin 1) = Double.nan ∨
      (Double.le (Double.fin 0) (stdMin (Double.div (fabs v) (Double.fin 100)) (Double.fin 1))
          = true ∧
        Double.le (stdMin (Double.div (fabs v) (Double.fin 100)) (Double.fin 1)) (Double.fin 1)
          = true) := by
  cases v with
  | fin q =>
      right
      simp only [fabs, div_hundred, stdMin_fin, Double.le, decide_eq_true_eq]
      exact ⟨le_min (div_nonneg (abs_nonneg q) (by norm_num)) (by norm_num), min_le_right _ _⟩
  | inf s =>
      right
      simp [fabs, stdMin, Double.lt, Double.le, Double.div]
  | nan => left; rfl

theorem applyFlag_inRangeOrNaN (ty : Char) (v : Double) (k : CSoundKeeper)
    (hk : InRangeOrNaN k) : InRangeOrNaN (applyFlag ty (fabs v) k) := by
  obtain ⟨h1, h2, h3, h4, h5⟩ := hk
  unfold applyFlag
  split_ifs
  · exact ⟨clamp_frequency v, h2, h3, h4, h5⟩
  · exact ⟨h1, clamp_amplitude v, h3, h4, h5⟩
  · exact ⟨h1, h2, h3, fabs_nonneg v, h5⟩
  · exact ⟨h1, h2, h3, h4, fabs_nonneg v⟩
  · exact ⟨h1, h2, fabs_nonneg v, h4, h5⟩
  · exact ⟨h1, h2, h3, h4, h5⟩

theorem resetStream_inRangeOrNaN (k : CSoundKeeper) (ty : KeepStreamType)
    (hk : InRangeOrNaN k) : InRangeOrNaN (resetStream k ty) := by
  obtain ⟨-, -, -, h4, h5⟩ := hk
  have e1 : (resetStream k ty).frequency = Double.fin 1 := rfl
  have e2 : (resetStream k ty).amplitude = Double.fin (1 / 100) := rfl
  have e3 : (resetStream k ty).fading = Double.fin (1 / 10) := rfl
  have e4 : (resetStream k ty).periodicPlaying = k.periodicPlaying := rfl
  have e5 : (resetStream k ty).periodicWaiting = k.periodicWaiting := rfl
  unfold InRangeOrNaN
  rw [e1, e2, e3, e4, e5]
  refine ⟨Or.inr ⟨?_, ?_⟩, Or.inr ⟨?_, ?_⟩, Or.inr ?_, h4, h5⟩
  · simp [Double.le]
  · simp [Double.le]
  · simp [Double.le]
  · simp only [Double.le, decide_eq_true_eq]
    norm_num
  · simp [Double.le]

theorem deviceStep_inRangeOrNaN (k : CSoundKeeper) (buf : List Char)
    (hk : InRangeOrNaN k) : InRangeOrNaN (deviceStep k buf) := by
  obtain ⟨-, e2, e3, e4, e5, e6⟩ := deviceStep_rest k buf
  unfold InRangeOrNaN
  rw [e2, e3, e4, e5, e6]
  exact hk

theorem streamStep_inRangeOrNaN (k : CSoundKeeper) (buf : List Char)
    (hk : InRangeOrNaN k) : InRangeOrNaN (streamStep k buf) := by
  unfold streamStep
  split
  · exact hk
  · split
    · exact scan_invariant InRangeOrNaN applyFlag_inRangeOrNaN _ _ (Nat.le_refl _) _
        (resetStream_inRangeOrNaN _ _ hk)
    · split
      · exact scan_invariant InRangeOrNaN applyFlag_inRangeOrNaN _ _ (Nat.le_refl _) _
          (resetStream_inRangeOrNaN _ _ hk)
      · exact hk

/-- On every text that fits the buffer, `ParseMode` keeps the bounds of the
stream parameters on every field that is not NaN. -/
theorem ParseMode_inRangeOrNaN (c : CSoundKeeper) (t : List Char) (h : t.length < MAX_PATH)
    (hc : InRangeOrNaN c) : ∃ r, ParseMode c t = Except.ok r ∧ InRangeOrNaN r :=
  ⟨_, ParseMode_eq c t h, streamStep_inRangeOrNaN _ _ (deviceStep_inRangeOrNaN _ _ hc)⟩

theorem strtod_nan : strtod [ 'n', 'a', 'n'] = (Double.nan, []) := by
  decide

theorem sampleKeeper_inRange : InRange sampleKeeper := by
  simp [InRange, sampleKeeper, initialKeeper, CSoundKeeper.SetDeviceType,
    CSoundKeeper.SetStreamType, Double.le]
  norm_num

/-- C11, at the text "sine a=nan": the sample configuration is within the
bounds, and after `ParseMode` the amplitude is NaN, which is not between 0 and
1; the result is outside the bounds. -/
theorem ParseMode_nan_amplitude :
    InRange sampleKeeper ∧
    ∃ r, ParseMode sampleKeeper "sine a=nan".toList = Except.ok r ∧
      r.amplitude = Double.nan ∧ ¬ InRange r := by
  refine ⟨sampleKeeper_inRange, _, ParseMode_eq _ _ (by decide), ?_⟩
  rw [deviceStep_none _ _ (by decide) (by decide) (by decide) (by decide),
    streamStep_sine _ _ (by decide) (by decide) "sine a=nan".toList (by decide)]
  have hd : List.drop 4 "sine a=nan".toList = ' ' :: 'a' :: [ '=', 'n', 'a', 'n'] := by decide
  have hdrop : List.dropWhile (fun x => decide (x = ' ') || decide (x = '='))
      [ '=', 'n', 'a', 'n'] = [ 'n', 'a', 'n'] := by decide
  rw [hd, scan_skip _ _ _ (Or.inl rfl), scan_flag _ 'a' _ (by decide), hdrop, strtod_nan,
    scan_nil]
  have ha : (applyFlag 'a' (fabs Double.nan) (resetStream sampleKeeper
      KeepStreamType.Sine)).amplitude = Double.nan := rfl
  refine ⟨ha, ?_⟩
  intro hr
  have h4 := hr.2.2.2.1
  rw [ha] at h4
  exact absurd h4 (by decide)

/-! ### Letter case -/

theorem toLower_toLower (c : Char) : c.toLower.toLower = c.toLower := by
  have h0 : c = Char.ofNat c.toNat := (Char.ofNat_toNat c).symm
  by_cases h : 65 ≤ c.toNat ∧ c.toNat ≤ 90
  · obtain ⟨h1, h2⟩ := h
    generalize c.toNat = n at h0 h1 h2
    subst h0
    interval_cases n <;> decide
  · have e : c.toLower = c := by
      unfold Char.toLower
      simp only [ge_iff_le]
      rw [if_neg h]
    rw [e, e]

theorem toLower_toUpper (c : Char) : c.toUpper.toLower = c.toLower := by
  have h0 : c = Char.ofNat c.toNat := (Char.ofNat_toNat c).symm
  by_cases h : 97 ≤ c.toNat ∧ c.toNat ≤ 122
  · obtain ⟨h1, h2⟩ := h
    generalize c.toNat = n at h0 h1 h2
    subst h0
    interval_cases n <;> decide
  · have e : c.toUpper = c := by
      unfold Char.toUpper
      simp only [ge_iff_le]
      rw [if_neg h]
    rw [e]

/-- `ParseMode` looks at its text only through the length and the lowercased
form. -/
theorem ParseMode_congr (c : CSoundKeeper) (t u : List Char) (hlen : t.length = u.length)
    (hlow : t.map Char.toLower = u.map Char.toLower) : ParseMode c t = ParseMode c u := by
  unfold ParseMode _strlwr
  rw [hlen, hlow]

/-- C12. For every configuration and every text, `ParseMode` gives the same
outcome on the text, on its lowercased form and on its uppercased form, where
only the case of the letters A to Z changes. -/
theorem ParseMode_case_insensitive (c : CSoundKeeper) (t : List Char) :
    ParseMode c t = ParseMode c (t.map Char.toLower) ∧
    ParseMode c t = ParseMode c (t.map Char.toUpper) := by
  constructor
  · apply ParseMode_congr
    · simp
    · simp [toLower_toLower]
  · apply ParseMode_congr
    · simp
    · simp [toLower_toUpper]

/-! ### Which stream keyword wins -/

theorem deviceStep_eq_set (c : CSoundKeeper) (buf : List Char) :
    deviceStep c buf = c.SetDeviceType (deviceStep c buf).deviceType := by
  obtain ⟨e1, e2, e3, e4, e5, e6⟩ := deviceStep_rest c buf
  exact keeper_ext _ _ rfl e1 e2 e3 e4 e5 e6

/-- C13. On every text that fits the buffer, with L its lowercased form. If L
contains neither "zero" nor "null" and has its first "sine" followed by
`rest`, then `ParseMode` is `ParseStreamArgs` with the tag Sine on `rest`
(run on the configuration with its device tag resolved), and the stream tag of
the result is Sine, wherever "noise" stands in L. If L contains none of
"zero", "null", "sine" and has its first "noise" followed by `rest`, the same
holds with the tag WhiteNoise. And a call that turns the stream tag into
WhiteNoise has a text with "noise" and none of "zero", "null", "sine". -/
theorem ParseMode_sine_priority (c : CSoundKeeper) (t pre rest : List Char)
    (h : t.length < MAX_PATH) :
    (¬ [ 'z', 'e', 'r', 'o'] <:+: t.map Char.toLower →
      ¬ [ 'n', 'u', 'l', 'l'] <:+: t.map Char.toLower →
      t.map Char.toLower = pre ++ [ 's', 'i', 'n', 'e'] ++ rest →
      ¬ [ 's', 'i', 'n', 'e'] <:+: pre ++ [ 's', 'i', 'n'] →
      ∃ d r, ParseMode c t = ParseStreamArgs (c.SetDeviceType d) KeepStreamType.Sine rest ∧
        ParseMode c t = Except.ok r ∧ r.streamType = KeepStreamType.Sine) ∧
    (¬ [ 'z', 'e', 'r', 'o'] <:+: t.map Char.toLower →
      ¬ [ 'n', 'u', 'l', 'l'] <:+: t.map Char.toLower →
      ¬ [ 's', 'i', 'n', 'e'] <:+: t.map Char.toLower →
      t.map Char.toLower = pre ++ [ 'n', 'o', 'i', 's', 'e'] ++ rest →
      ¬ [ 'n', 'o', 'i', 's', 'e'] <:+: pre ++ [ 'n', 'o', 'i', 's'] →
      ∃ d r, ParseMode c t =
          ParseStreamArgs (c.SetDeviceType d) KeepStreamType.WhiteNoise rest ∧
        ParseMode c t = Except.ok r ∧ r.streamType = KeepStreamType.WhiteNoise) ∧
    (∀ r, ParseMode c t = Except.ok r → r.streamType = KeepStreamType.WhiteNoise →
      c.streamType ≠ KeepStreamType.WhiteNoise →
      [ 'n', 'o', 'i', 's', 'e'] <:+: t.map Char.toLower ∧
      ¬ [ 'z', 'e', 'r', 'o'] <:+: t.map Char.toLower ∧
      ¬ [ 'n', 'u', 'l', 'l'] <:+: t.map Char.toLower ∧
      ¬ [ 's', 'i', 'n', 'e'] <:+: t.map Char.toLower) := by
  refine ⟨?_, ?_, ?_⟩
  · intro hz hn hL hfirst
    have hp := strstr_first pre [ 's', 'i', 'n', 'e'] rest (by simp) hfirst
    rw [← hL] at hp
    have hd : List.drop 4 ([ 's', 'i', 'n', 'e'] ++ rest) = rest := rfl
    refine ⟨(deviceStep c (t.map Char.toLower)).deviceType, _, ?_, ParseMode_eq c t h, ?_⟩
    · rw [ParseMode_eq c t h, ParseStreamArgs_eq, streamStep_sine _ _ hz hn _ hp, hd,
        ← deviceStep_eq_set]
    · rw [streamStep_sine _ _ hz hn _ hp, scan_streamType]
      rfl
  · intro hz hn hs hL hfirst
    have hp := strstr_first pre [ 'n', 'o', 'i', 's', 'e'] rest (by simp) hfirst
    rw [← hL] at hp
    have hd : List.drop 5 ([ 'n', 'o', 'i', 's', 'e'] ++ rest) = rest := rfl
    refine ⟨(deviceStep c (t.map Char.toLower)).deviceType, _, ?_, ParseMode_eq c t h, ?_⟩
    · rw [ParseMode_eq c t h, ParseStreamArgs_eq, streamStep_noise _ _ hz hn hs _ hp, hd,
        ← deviceStep_eq_set]
    · rw [streamStep_noise _ _ hz hn hs _ hp, scan_streamType]
      rfl
  · intro r hr hw hc
    rw [ParseMode_eq c t h] at hr
    cases hr
    by_cases hzn : [ 'z', 'e', 'r', 'o'] <:+: t.map Char.toLower ∨
        [ 'n', 'u', 'l', 'l'] <:+: t.map Char.toLower
    · rw [streamStep_zero _ _ hzn] at hw
      cases hw
    · have hz : ¬ [ 'z', 'e', 'r', 'o'] <:+: t.map Char.toLower := fun e => hzn (Or.inl e)
      have hn : ¬ [ 'n', 'u', 'l', 'l'] <:+: t.map Char.toLower := fun e => hzn (Or.inr e)
      by_cases hs : [ 's', 'i', 'n', 'e'] <:+: t.map Char.toLower
      · obtain ⟨p, hp⟩ := Option.isSome_iff_exists.mp ((strstr_isSome_iff _ _).mpr hs)
        rw [streamStep_sine _ _ hz hn _ hp, scan_streamType] at hw
        cases hw
      · by_cases hno : [ 'n', 'o', 'i', 's', 'e'] <:+: t.map Char.toLower
        · exact ⟨hno, hz, hn, hs⟩
        · rw [streamStep_none _ _ hz hn hs hno, (deviceStep_rest c _).1] at hw
          exact absurd hw hc

/-- C13, on the text "noise f=2 sine f=3": the flags after "sine" are the ones
scanned, and the stream tag is Sine. -/
theorem ParseMode_sine_priority_witness :
    "noise f=2 sine f=3".toList.length < MAX_PATH ∧
    ¬ [ 'z', 'e', 'r', 'o'] <:+: "noise f=2 sine f=3".toList.map Char.toLower ∧
    ¬ [ 'n', 'u', 'l', 'l'] <:+: "noise f=2 sine f=3".toList.map Char.toLower ∧
    "noise f=2 sine f=3".toList.map Char.toLower =
      "noise f=2 ".toList ++ [ 's', 'i', 'n', 'e'] ++ " f=3".toList ∧
    ¬ [ 's', 'i', 'n', 'e'] <:+: "noise f=2 ".toList ++ [ 's', 'i', 'n'] ∧
    ∃ d r, ParseMode sampleKeeper "noise f=2 sine f=3".toList =
        ParseStreamArgs (sampleKeeper.SetDeviceType d) KeepStreamType.Sine " f=3".toList ∧
      ParseMode sampleKeeper "noise f=2 sine f=3".toList = Except.ok r ∧
      r.streamType = KeepStreamType.Sine :=
  ⟨by decide, by decide, by decide, by decide, by decide,
    (ParseMode_sine_priority sampleKeeper "noise f=2 sine f=3".toList "noise f=2 ".toList
      " f=3".toList (by decide)).1 (by decide) (by decide) (by decide) (by decide)⟩

/-! ### One iteration of the loop -/

/-- The loop is the iteration of `scanStep`. -/
theorem scanLoop_step (n : Nat) (k : CSoundKeeper) (p : List Char) :
    scanLoop (n + 1) k p =
      match scanStep k p with
      | none => some k
      | some (k2, p2) => scanLoop n k2 p2 := by
  cases p with
  | nil => rfl
  | cons c r =>
      rw [scanLoop, scanStep]
      split_ifs <;> rfl

/-- An iteration that does not end the loop leaves the cursor strictly
further. -/
theorem scanStep_advances (k k2 : CSoundKeeper) (p p2 : List Char)
    (h : scanStep k p = some (k2, p2)) : p2 <:+ p ∧ p2.length < p.length := by
  cases p with
  | nil => simp [scanStep] at h
  | cons c r =>
      rw [scanStep] at h
      have key : ∀ q : List Char, q <:+ r → q <:+ c :: r ∧ q.length < (c :: r).length := by
        intro q hs
        refine ⟨hs.trans (List.suffix_cons _ _), ?_⟩
        have := hs.length_le
        simp only [List.length_cons]
        omega
      split_ifs at h
      · simp only [Option.some.injEq, Prod.mk.injEq] at h
        rw [← h.2]
        exact key _ (List.suffix_refl _)
      · simp only [Option.some.injEq, Prod.mk.injEq] at h
        rw [← h.2]
        exact key _ ((strtod_suffix _).trans (List.dropWhile_suffix _))

/-- C14. The scan of `ParseStreamArgs` ends on every argument text. An
iteration that does not stop the scan moves the cursor to a strictly later
place of the text (never backward), the loop is the iteration of that step,
it reaches its end within one iteration more than there are characters, with a
result that more iterations do not change, and `ParseStreamArgs` returns. -/
theorem ParseStreamArgs_terminates (k : CSoundKeeper) (ty : KeepStreamType) (p : List Char) :
    (∀ k2 p2, scanStep k p = some (k2, p2) → p2 <:+ p ∧ p2.length < p.length) ∧
    (∀ n, scanLoop (n + 1) k p =
      match scanStep k p with
      | none => some k
      | some (k2, p2) => scanLoop n k2 p2) ∧
    (∃ r, ∀ n, p.length < n → scanLoop n k p = some r) ∧
    (∃ r, ParseStreamArgs k ty p = Except.ok r) :=
  ⟨fun k2 p2 h => scanStep_advances k k2 p p2 h, fun n => scanLoop_step n k p,
    ⟨scan k p, fun n hn => scanLoop_eq_scan n k p hn⟩, ⟨_, ParseStreamArgs_eq k ty p⟩⟩

theorem strtod_x : strtod [ 'x'] = (Double.fin 0, [ 'x']) := by
  decide

/-- C14, on the argument text "fx", where `strtod` consumes nothing after the
flag letter: the iteration still moves the cursor, from "fx" to "x". -/
theorem ParseStreamArgs_terminates_witness :
    scanStep sampleKeeper [ 'f', 'x'] =
      some (applyFlag 'f' (fabs (Double.fin 0)) sampleKeeper, [ 'x']) ∧
    [ 'x'] <:+ [ 'f', 'x'] ∧ [ 'x'].length < [ 'f', 'x'].length := by
  have hs : scanStep sampleKeeper [ 'f', 'x'] =
      some (applyFlag 'f' (fabs (Double.fin 0)) sampleKeeper, [ 'x']) := by
    have hd : List.dropWhile (fun x => decide (x = ' ') || decide (x = '=')) [ 'x'] = [ 'x'] := by
      decide
    rw [scanStep, if_neg (by decide), if_pos (by decide)]
    dsimp only
    rw [hd, strtod_x]
  exact ⟨hs, (ParseStreamArgs_terminates sampleKeeper KeepStreamType.Sine [ 'f', 'x']).1 _ _ hs⟩

/-! ### A flag letter without a number -/

theorem parseSpecial_none (q : List Char)
    (h1 : [ 'i', 'n', 'f'].isPrefixOf (q.map Char.toLower) = false)
    (h2 : [ 'n', 'a', 'n'].isPrefixOf (q.map Char.toLower) = false) :
    parseSpecial q = none := by
  have h0 : [ 'i', 'n', 'f', 'i', 'n', 'i', 't', 'y'].isPrefixOf (q.map Char.toLower) = false := by
    cases hb : [ 'i', 'n', 'f', 'i', 'n', 'i', 't', 'y'].isPrefixOf (q.map Char.toLower)
    · rfl
    · exfalso
      have hp : [ 'i', 'n', 'f', 'i', 'n', 'i', 't', 'y'] <+: q.map Char.toLower :=
        List.isPrefixOf_iff_prefix.mp hb
      have hq : [ 'i', 'n', 'f'] <+: q.map Char.toLower :=
        List.IsPrefix.trans ⟨[ 'i', 'n', 'i', 't', 'y'], rfl⟩ hp
      rw [List.isPrefixOf_iff_prefix.mpr hq] at h1
      cases h1
  unfold parseSpecial
  simp only [h0, h1, h2]
  rfl

theorem parseHex_none (q : List Char) (h : digitAt q = false) : parseHex q = none := by
  unfold parseHex
  split
  · simp [digitAt] at h
  · rfl

theorem parseDecimal_none (q : List Char) (h1 : digitAt q = false)
    (h2 : (q.head? = some '.' && digitAt q.tail) = false) : parseDecimal q = none := by
  have hq : ∀ x, q.head? = some x → Char.isDigit x = false := by
    intro x hx
    cases q with
    | nil => simp at hx
    | cons a r =>
        simp only [List.head?_cons, Option.some.injEq] at hx
        rw [← hx]
        exact h1
  obtain ⟨e1, e2⟩ := span_of_head Char.isDigit q hq
  have hm : (readMantissa Char.isDigit q).1 = [] ∧ (readMantissa Char.isDigit q).2.1 = [] := by
    unfold readMantissa
    dsimp only
    rw [e1, e2]
    split
    · rename_i r
      have hr : ∀ x, r.head? = some x → Char.isDigit x = false := by
        intro x hx
        cases r with
        | nil => simp at hx
        | cons a r2 =>
            simp only [List.head?_cons, Option.some.injEq] at hx
            rw [← hx]
            simpa [digitAt] using h2
      exact ⟨rfl, (span_of_head Char.isDigit r hr).1⟩
    · exact ⟨rfl, rfl⟩
  unfold parseDecimal
  dsimp only
  rw [if_pos hm]

theorem parseMagnitude_none (q : List Char) (h : startsNumber q = false) :
    parseMagnitude q = none := by
  unfold startsNumber at h
  simp only [Bool.or_eq_false_iff] at h
  obtain ⟨⟨⟨h1, h2⟩, h3⟩, h4⟩ := h
  unfold parseMagnitude
  rw [parseSpecial_none q h3 h4, parseHex_none q h1, parseDecimal_none q h1 h2]

/-- On a text that does not begin a number, `strtod` returns 0 and the cursor
it was given. -/
theorem strtod_no_number (p : List Char) (h : beginsNumber p = false) :
    strtod p = (Double.fin 0, p) := by
  unfold strtod
  dsimp only
  rw [parseMagnitude_none _ h]

theorem fabs_zero : fabs (Double.fin 0) = Double.fin 0 := by
  simp [fabs]

/-- The flag applied with the value 0 puts 0 into the field of the flag. -/
theorem applyFlag_zero (k : CSoundKeeper) :
    (applyFlag 'f' (Double.fin 0) k).frequency = Double.fin 0 ∧
    (applyFlag 'a' (Double.fin 0) k).amplitude = Double.fin 0 ∧
    (applyFlag 'l' (Double.fin 0) k).periodicPlaying = Double.fin 0 ∧
    (applyFlag 'w' (Double.fin 0) k).periodicWaiting = Double.fin 0 ∧
    (applyFlag 't' (Double.fin 0) k).fading = Double.fin 0 := by
  refine ⟨?_, ?_, rfl, rfl, rfl⟩
  · rw [applyFlag_f]
    show Double.fin (min 0 96000) = Double.fin 0
    norm_num
  · rw [applyFlag_a]
    show Double.fin (min (0 / 100) 1) = Double.fin 0
    norm_num

/-- C15. Let `x` be a flag letter, followed by a run of spaces and '=' and then
by a text `p` that does not begin a number as `strtod` reads it (`p` may be
empty). Then the iteration of the loop at `x` applies the flag with the value
0 and leaves the cursor at `p`; the field of `x` (frequency for f, amplitude
for a, playing time for l, waiting time for w, fading for t) is then 0; and
the scan goes on from `p`. -/
theorem scanStep_no_number (k : CSoundKeeper) (x : Char) (seps p : List Char)
    (hx : x = 'f' ∨ x = 'a' ∨ x = 'l' ∨ x = 'w' ∨ x = 't')
    (hseps : ∀ y ∈ seps, y = ' ' ∨ y = '=')
    (hp : ∀ y, p.head? = some y → y ≠ ' ' ∧ y ≠ '=')
    (hnum : beginsNumber p = false) :
    scanStep k (x :: (seps ++ p)) = some (applyFlag x (Double.fin 0) k, p) ∧
    (x = 'f' → (applyFlag x (Double.fin 0) k).frequency = Double.fin 0) ∧
    (x = 'a' → (applyFlag x (Double.fin 0) k).amplitude = Double.fin 0) ∧
    (x = 'l' → (applyFlag x (Double.fin 0) k).periodicPlaying = Double.fin 0) ∧
    (x = 'w' → (applyFlag x (Double.fin 0) k).periodicWaiting = Double.fin 0) ∧
    (x = 't' → (applyFlag x (Double.fin 0) k).fading = Double.fin 0) ∧
    scan k (x :: (seps ++ p)) = scan (applyFlag x (Double.fin 0) k) p := by
  have hflag : isFlag x = true := by
    rcases hx with rfl | rfl | rfl | rfl | rfl <;> decide
  have hsep : ¬ (x = ' ' ∨ x = '-') := by
    rcases hx with rfl | rfl | rfl | rfl | rfl <;> decide
  have hdrop : (seps ++ p).dropWhile (fun y => y = ' ' || y = '=') = p := by
    refine (span_append _ seps p ?_ ?_).2
    · simp only [List.all_eq_true, Bool.or_eq_true, decide_eq_true_eq]
      exact hseps
    · intro y hy
      obtain ⟨a1, a2⟩ := hp y hy
      simp [a1, a2]
  obtain ⟨z1, z2, z3, z4, z5⟩ := applyFlag_zero k
  refine ⟨?_, ?_, ?_, ?_, ?_, ?_, ?_⟩
  · rw [scanStep, if_neg hsep, if_pos hflag]
    dsimp only
    rw [hdrop, strtod_no_number p hnum, fabs_zero]
  · rintro rfl; exact z1
  · rintro rfl; exact z2
  · rintro rfl; exact z3
  · rintro rfl; exact z4
  · rintro rfl; exact z5
  · rw [scan_flag k x _ hflag, hdrop, strtod_no_number p hnum, fabs_zero]

/-- C15, on the texts "sine fx" and "sine f": the flag letter f is followed by
"x", or by nothing, and the frequency is 0, not the default 1. -/
theorem scanStep_no_number_witness :
    ( 'f' = 'f' ∨ 'f' = 'a' ∨ 'f' = 'l' ∨ 'f' = 'w' ∨ 'f' = 't') ∧
    beginsNumber [ 'x'] = false ∧ beginsNumber [] = false ∧
    (∃ r, ParseMode sampleKeeper "sine fx".toList = Except.ok r ∧
      r.frequency = Double.fin 0) ∧
    (∃ r, ParseMode sampleKeeper "sine f".toList = Except.ok r ∧
      r.frequency = Double.fin 0) := by
  refine ⟨Or.inl rfl, by decide, by decide, ⟨_, ParseMode_eq _ _ (by decide), ?_⟩,
    ⟨_, ParseMode_eq _ _ (by decide), ?_⟩⟩
  · obtain ⟨-, hf, -, -, -, -, hscan⟩ :=
      scanStep_no_number (resetStream sampleKeeper KeepStreamType.Sine) 'f' [] [ 'x']
        (Or.inl rfl) (by simp) (by decide) (by decide)
    rw [deviceStep_none _ _ (by decide) (by decide) (by decide) (by decide),
      streamStep_sine _ _ (by decide) (by decide) "sine fx".toList (by decide)]
    have hd : List.drop 4 "sine fx".toList = ' ' :: 'f' :: ([] ++ [ 'x']) := by decide
    rw [hd, scan_skip _ _ _ (Or.inl rfl), hscan, scan_stop _ _ _ (by decide) (by decide)]
    exact hf rfl
  · obtain ⟨-, hf, -, -, -, -, hscan⟩ :=
      scanStep_no_number (resetStream sampleKeeper KeepStreamType.Sine) 'f' [] []
        (Or.inl rfl) (by simp) (by decide) (by decide)
    rw [deviceStep_none _ _ (by decide) (by decide) (by decide) (by decide),
      streamStep_sine _ _ (by decide) (by decide) "sine f".toList (by decide)]
    have hd : List.drop 4 "sine f".toList = ' ' :: 'f' :: ([] ++ []) := by decide
    rw [hd, scan_skip _ _ _ (Or.inl rfl), hscan, scan_nil]
    exact hf rfl

/-! ### A device keyword read as flags -/

/-- A flag letter followed by a text that does not begin a number: the scan
applies the flag with the value 0 and goes on. -/
theorem scan_flag_zero (k : CSoundKeeper) (x : Char) (r : List Char) (hx : isFlag x = true)
    (hnum : beginsNumber (r.dropWhile (fun y => y = ' ' || y = '=')) = false) :
    scan k (x :: r) =
      scan (applyFlag x (Double.fin 0) k) (r.dropWhile (fun y => y = ' ' || y = '=')) := by
  rw [scan_flag k x r hx, strtod_no_number _ hnum, fabs_zero]

/-- C18. For every configuration, "sine all" gives the device tag All and the
stream tag Sine and, because the letters of "all" are read as flags without a
number, amplitude 0 and periodic playing time 0, with frequency 1 and fading
0.1; "all sine" gives amplitude 0.01 and keeps the periodic playing time; the
two results differ. -/
theorem ParseMode_sine_all (c : CSoundKeeper) :
    ∃ r1 r2, ParseMode c "sine all".toList = Except.ok r1 ∧
      ParseMode c "all sine".toList = Except.ok r2 ∧
      r1.deviceType = KeepDeviceType.All ∧ r1.streamType = KeepStreamType.Sine ∧
      r1.amplitude = Double.fin 0 ∧ r1.periodicPlaying = Double.fin 0 ∧
      r1.frequency = Double.fin 1 ∧ r1.fading = Double.fin (1 / 10) ∧
      r2.deviceType = KeepDeviceType.All ∧ r2.streamType = KeepStreamType.Sine ∧
      r2.amplitude = Double.fin (1 / 100) ∧ r2.periodicPlaying = c.periodicPlaying ∧
      r1 ≠ r2 := by
  have hdev1 : (deviceStep c ("sine all".toList.map Char.toLower)).deviceType =
      KeepDeviceType.All := by
    rw [deviceStep_deviceType, if_neg (by decide), if_neg (by decide), if_neg (by decide),
      if_pos (by decide)]
  have hdev2 : (deviceStep c ("all sine".toList.map Char.toLower)).deviceType =
      KeepDeviceType.All := by
    rw [deviceStep_deviceType, if_neg (by decide), if_neg (by decide), if_neg (by decide),
      if_pos (by decide)]
  have hrun1 : streamStep (deviceStep c ("sine all".toList.map Char.toLower))
      ("sine all".toList.map Char.toLower) =
      applyFlag 'l' (Double.fin 0) (applyFlag 'l' (Double.fin 0) (applyFlag 'a' (Double.fin 0)
        (resetStream (deviceStep c ("sine all".toList.map Char.toLower))
          KeepStreamType.Sine))) := by
    rw [streamStep_sine _ _ (by decide) (by decide) "sine all".toList (by decide)]
    have hd : List.drop 4 "sine all".toList = ' ' :: 'a' :: [ 'l', 'l'] := by decide
    have d2 : List.dropWhile (fun y => decide (y = ' ') || decide (y = '=')) [ 'l', 'l'] =
        'l' :: [ 'l'] := by decide
    have d1 : List.dropWhile (fun y => decide (y = ' ') || decide (y = '=')) [ 'l'] =
        'l' :: [] := by decide
    have d0 : List.dropWhile (fun y => decide (y = ' ') || decide (y = '=')) ([] : List Char) =
        [] := rfl
    rw [hd, scan_skip _ _ _ (Or.inl rfl),
      scan_flag_zero _ 'a' _ (by decide) (by decide), d2,
      scan_flag_zero _ 'l' _ (by decide) (by decide), d1,
      scan_flag_zero _ 'l' _ (by decide) (by decide), d0, scan_nil]
  have hrun2 : streamStep (deviceStep c ("all sine".toList.map Char.toLower))
      ("all sine".toList.map Char.toLower) =
      resetStream (deviceStep c ("all sine".toList.map Char.toLower)) KeepStreamType.Sine := by
    rw [streamStep_sine _ _ (by decide) (by decide) "sine".toList (by decide)]
    have hd : List.drop 4 "sine".toList = [] := by decide
    rw [hd, scan_nil]
  have hamp : (applyFlag 'l' (Double.fin 0) (applyFlag 'l' (Double.fin 0)
      (applyFlag 'a' (Double.fin 0)
        (resetStream (deviceStep c ("sine all".toList.map Char.toLower))
          KeepStreamType.Sine)))).amplitude = Double.fin 0 :=
    (applyFlag_zero _).2.1
  have hne : Double.fin 0 ≠ Double.fin (1 / 100) := by
    intro e
    simp only [Double.fin.injEq] at e
    norm_num at e
  refine ⟨_, _, ParseMode_eq c _ (by decide), ParseMode_eq c _ (by decide), ?_, ?_, ?_, ?_,
    ?_, ?_, ?_, ?_, ?_, ?_, ?_⟩
  · rw [streamStep_deviceType]; exact hdev1
  · rw [hrun1]; rfl
  · rw [hrun1]; exact hamp
  · rw [hrun1]; rfl
  · rw [hrun1]; rfl
  · rw [hrun1]; rfl
  · rw [streamStep_deviceType]; exact hdev2
  · rw [hrun2]; rfl
  · rw [hrun2]; rfl
  · rw [hrun2]; exact (deviceStep_rest c _).2.2.2.2.1
  · intro e
    have e2 := congrArg CSoundKeeper.amplitude e
    rw [hrun1, hamp, hrun2] at e2
    exact hne e2

/-! ### The program name on the command line -/

theorem dropWhile_spaces (sp r : List Char) (hsp : ∀ y ∈ sp, y = ' ')
    (hr : r.head? ≠ some ' ') : (sp ++ r).dropWhile (fun c => c = ' ') = r := by
  refine (span_append _ sp r ?_ ?_).2
  · simp only [List.all_eq_true, decide_eq_true_eq]
    exact hsp
  · intro y hy
    have : y ≠ ' ' := fun e => hr (by rw [hy, e])
    simp [this]

/-- The program name in double quotes. -/
theorem skipProgramName_quoted (lead q sp r : List Char) (hlead : ∀ y ∈ lead, y = ' ')
    (hq : dquote ∉ q) (hsp : ∀ y ∈ sp, y = ' ') (hr : r.head? ≠ some ' ') :
    skipProgramName (lead ++ dquote :: (q ++ dquote :: (sp ++ r))) = r := by
  have h1 : (lead ++ dquote :: (q ++ dquote :: (sp ++ r))).dropWhile (fun c => c = ' ') =
      dquote :: (q ++ dquote :: (sp ++ r)) :=
    dropWhile_spaces lead _ hlead (by
      intro e
      simp only [List.head?_cons, Option.some.injEq] at e
      exact absurd e (by decide))
  have h2 : (q ++ dquote :: (sp ++ r)).dropWhile (fun x => x ≠ dquote) =
      dquote :: (sp ++ r) := by
    refine (span_append _ q _ ?_ ?_).2
    · simp only [List.all_eq_true, decide_eq_true_eq]
      intro y hy e
      exact hq (e ▸ hy)
    · intro y hy
      simp only [List.head?_cons, Option.some.injEq] at hy
      simp [hy]
  unfold skipProgramName
  dsimp only
  rw [h1]
  dsimp only
  rw [if_pos rfl, h2]
  dsimp only
  rw [if_pos rfl]
  exact dropWhile_spaces sp r hsp hr

/-- The program name without quotes. -/
theorem skipProgramName_plain (lead p sp r : List Char) (hlead : ∀ y ∈ lead, y = ' ')
    (hne : p ≠ []) (hp : ' ' ∉ p) (hp2 : p.head? ≠ some dquote)
    (hsp : ∀ y ∈ sp, y = ' ') (hsep : sp ≠ [] ∨ r = []) (hr : r.head? ≠ some ' ') :
    skipProgramName (lead ++ (p ++ (sp ++ r))) = r := by
  obtain ⟨a, p2, rfl⟩ := List.exists_cons_of_ne_nil hne
  have ha : a ≠ ' ' := fun e => hp (by simp [e])
  have ha2 : a ≠ dquote := fun e => hp2 (by simp [e])
  have h1 : (lead ++ (a :: p2 ++ (sp ++ r))).dropWhile (fun c => c = ' ') =
      a :: (p2 ++ (sp ++ r)) :=
    dropWhile_spaces lead _ hlead (by simpa using ha)
  have h2 : (a :: p2 ++ (sp ++ r)).dropWhile (fun x => x ≠ ' ') = sp ++ r := by
    refine (span_append _ (a :: p2) _ ?_ ?_).2
    · simp only [List.all_eq_true, decide_eq_true_eq]
      intro y hy e
      exact hp (e ▸ hy)
    · intro y hy
      rcases hsep with hs | hs
      · obtain ⟨b, sp2, rfl⟩ := List.exists_cons_of_ne_nil hs
        simp only [List.cons_append, List.head?_cons, Option.some.injEq] at hy
        have hb : b = ' ' := hsp b (by simp)
        simp [← hy, hb]
      · subst hs
        cases sp with
        | nil => simp at hy
        | cons b sp2 =>
            simp only [List.cons_append, List.head?_cons, Option.some.injEq] at hy
            have hb : b = ' ' := hsp b (by simp)
            simp [← hy, hb]
  unfold skipProgramName
  dsimp only
  rw [h1]
  dsimp only
  rw [if_neg ha2]
  have e : a :: (p2 ++ (sp ++ r)) = a :: p2 ++ (sp ++ r) := rfl
  rw [e, h2]
  exact dropWhile_spaces sp r hsp hr

/-- C16. The skipping of the program name in `Main`. For a program name `q`
without double quote, written between double quotes, and a text `r` that does
not start with a space, the command line of `q` in quotes, a run of spaces and
`r` (after any leading spaces) gives the mode text `r`. For a program name `p`
that is not empty, has no space and does not start with a double quote, the
command line of `p`, at least one space and `r` (or `p` alone) gives the mode
text `r`. And when nothing is left after the program name, the second pass
returns the configuration it was given. -/
theorem Main_program_name :
    (∀ lead q sp r : List Char, (∀ y ∈ lead, y = ' ') → dquote ∉ q → (∀ y ∈ sp, y = ' ') →
      r.head? ≠ some ' ' →
      skipProgramName (lead ++ dquote :: (q ++ dquote :: (sp ++ r))) = r) ∧
    (∀ lead p sp r : List Char, (∀ y ∈ lead, y = ' ') → p ≠ [] → ' ' ∉ p →
      p.head? ≠ some dquote → (∀ y ∈ sp, y = ' ') → (sp ≠ [] ∨ r = []) →
      r.head? ≠ some ' ' →
      skipProgramName (lead ++ (p ++ (sp ++ r))) = r) ∧
    (∀ (k : CSoundKeeper) (cmdln : List Char), skipProgramName cmdln = [] →
      Main_commandLine k (some cmdln) = Except.ok k) ∧
    (∀ (k : CSoundKeeper) (cmdln : List Char), skipProgramName cmdln ≠ [] →
      Main_commandLine k (some cmdln) = ParseMode k (skipProgramName cmdln)) := by
  refine ⟨skipProgramName_quoted, skipProgramName_plain, ?_, ?_⟩
  · intro k cmdln h
    unfold Main_commandLine
    dsimp only
    rw [if_neg (by simp [h])]
  · intro k cmdln h
    unfold Main_commandLine
    dsimp only
    rw [if_pos h]

/-- C16, on the command lines ` "sound keeper.exe"  sine f=5`,
`SoundKeeper.exe  kill` and `SoundKeeper.exe`. -/
theorem Main_program_name_witness :
    skipProgramName ([ ' '] ++ dquote :: ("sound keeper.exe".toList ++
      dquote :: ([ ' ', ' '] ++ "sine f=5".toList))) = "sine f=5".toList ∧
    skipProgramName ([] ++ ("SoundKeeper.exe".toList ++ ([ ' ', ' '] ++ "kill".toList))) =
      "kill".toList ∧
    skipProgramName "SoundKeeper.exe".toList = [] ∧
    Main_commandLine sampleKeeper (some "SoundKeeper.exe".toList) = Except.ok sampleKeeper :=
  ⟨Main_program_name.1 [ ' '] "sound keeper.exe".toList [ ' ', ' '] "sine f=5".toList
      (by decide) (by decide) (by decide) (by decide),
    Main_program_name.2.1 [] "SoundKeeper.exe".toList [ ' ', ' '] "kill".toList
      (by decide) (by decide) (by decide) (by decide) (by decide) (by decide) (by decide),
    by decide,
    Main_program_name.2.2.1 sampleKeeper "SoundKeeper.exe".toList (by decide)⟩

/-! ### The base name of the executable -/

theorem strrchr_none (p : List Char) (c : Char) (h : c ∉ p) : strrchr p c = none := by
  induction p with
  | nil => rfl
  | cons x r ih =>
      have hx : x ≠ c := fun e => h (by simp [e])
      have hr : c ∉ r := fun e => h (List.mem_cons_of_mem _ e)
      rw [strrchr, ih hr]
      dsimp only
      rw [if_neg hx]

theorem strrchr_last (d n : List Char) (c : Char) (h : c ∉ n) :
    strrchr (d ++ c :: n) c = some (c :: n) := by
  induction d with
  | nil =>
      rw [List.nil_append, strrchr, strrchr_none n c h]
      dsimp only
      rw [if_pos rfl]
  | cons x r ih =>
      rw [List.cons_append, strrchr, ih]

/-- What `GetModuleFileNameA` leaves for a path that fits the buffer. -/
theorem GetModuleFileNameA_fits (p : List Char) (h : p.length < MAX_PATH) :
    GetModuleFileNameA (some p) MAX_PATH = (p.length, p) := by
  unfold GetModuleFileNameA
  dsimp only
  rw [if_pos h]

/-- C17, as amended. For every path of the executable shorter than `MAX_PATH`
of the form `d`, a backslash, `n`, with no backslash in `n`, the first pass is
`ParseMode` on `n` alone, so the directory part has no effect, and `Main`
without a command line gives `ParseMode` of `n` on the defaults (device tag
Primary, stream tag Fluctuate); for a path without backslash the first pass
is skipped; and for every path of `MAX_PATH` or more characters, for which
`GetModuleFileNameA` returns `MAX_PATH`, the first pass is skipped as well,
whatever its base name. -/
theorem Main_fileName_base (k ctor : CSoundKeeper) (d n p : List Char) :
    (backslash ∉ n → (d ++ backslash :: n).length < MAX_PATH →
      Main_fileName k (some (d ++ backslash :: n)) = ParseMode k n ∧
      Main ctor (some (d ++ backslash :: n)) none =
        ParseMode ((ctor.SetDeviceType KeepDeviceType.Primary).SetStreamType
          KeepStreamType.Fluctuate) n) ∧
    (backslash ∉ p → Main_fileName k (some p) = Except.ok k ∧
      Main ctor (some p) none =
        Except.ok ((ctor.SetDeviceType KeepDeviceType.Primary).SetStreamType
          KeepStreamType.Fluctuate)) ∧
    (∀ q : List Char, MAX_PATH ≤ q.length → Main_fileName k (some q) = Except.ok k ∧
      Main ctor (some q) none =
        Except.ok ((ctor.SetDeviceType KeepDeviceType.Primary).SetStreamType
          KeepStreamType.Fluctuate)) := by
  have hlong : ∀ (k2 : CSoundKeeper) (q : List Char), MAX_PATH ≤ q.length →
      Main_fileName k2 (some q) = Except.ok k2 := by
    intro k2 q hq
    unfold Main_fileName GetModuleFileNameA
    dsimp only
    rw [if_neg (Nat.not_lt.mpr hq)]
    dsimp only
    rw [if_neg (fun h => h.2 rfl)]
  have hbase : ∀ k2 : CSoundKeeper, backslash ∉ n → (d ++ backslash :: n).length < MAX_PATH →
      Main_fileName k2 (some (d ++ backslash :: n)) = ParseMode k2 n := by
    intro k2 hn hlen
    have hpos : (d ++ backslash :: n).length ≠ 0 := by simp
    unfold Main_fileName
    dsimp only
    rw [GetModuleFileNameA_fits _ hlen]
    dsimp only
    rw [if_pos ⟨hpos, Nat.ne_of_lt hlen⟩, strrchr_last d n backslash hn]
    rfl
  have hskip : ∀ k2 : CSoundKeeper, backslash ∉ p → Main_fileName k2 (some p) = Except.ok k2 := by
    intro k2 hp
    unfold Main_fileName
    dsimp only
    split_ifs with hc
    · have hfit : p.length < MAX_PATH := by
        by_contra hlen
        apply hc.2
        unfold GetModuleFileNameA
        dsimp only
        rw [if_neg hlen]
      rw [GetModuleFileNameA_fits _ hfit]
      dsimp only
      rw [strrchr_none p backslash hp]
    · rfl
  have hmain : ∀ (path : List Char) (res : Except Fault CSoundKeeper),
      Main_fileName ((ctor.SetDeviceType KeepDeviceType.Primary).SetStreamType
        KeepStreamType.Fluctuate) (some path) = res → Main ctor (some path) none = res := by
    intro path res h
    unfold Main
    dsimp only
    rw [h]
    cases res <;> rfl
  refine ⟨?_, ?_, ?_⟩
  · intro hn hlen
    exact ⟨hbase k hn hlen, hmain _ _ (hbase _ hn hlen)⟩
  · intro hp
    exact ⟨hskip k hp, hmain _ _ (hskip _ hp)⟩
  · intro q hq
    exact ⟨hlong k q hq, hmain _ _ (hlong _ q hq)⟩

/-- C17 as amended, on the path `C:`, backslash, `all`, backslash, `sine.exe`:
the first pass is `ParseMode` on "sine.exe", and the folder "all" has no
effect; and on a path of 260 characters ending in "all.exe": the first pass
is skipped. -/
theorem Main_fileName_base_witness :
    backslash ∉ "sine.exe".toList ∧
    ("C:".toList ++ backslash :: ("all".toList ++ [backslash]) ++
      backslash :: "sine.exe".toList).length < MAX_PATH ∧
    Main_fileName sampleKeeper (some ("C:".toList ++ backslash :: ("all".toList ++ [backslash]) ++
      backslash :: "sine.exe".toList)) = ParseMode sampleKeeper "sine.exe".toList ∧
    MAX_PATH ≤ (List.replicate 252 'x' ++ backslash :: "all.exe".toList).length ∧
    Main_fileName sampleKeeper
      (some (List.replicate 252 'x' ++ backslash :: "all.exe".toList)) =
      Except.ok sampleKeeper := by
  have hlen : MAX_PATH ≤ (List.replicate 252 'x' ++ backslash :: "all.exe".toList).length := by
    rw [List.length_append, List.length_replicate]
    decide
  exact ⟨by decide, by decide,
    ((Main_fileName_base sampleKeeper sampleKeeper
      ("C:".toList ++ backslash :: ("all".toList ++ [backslash])) "sine.exe".toList []).1
      (by decide) (by decide)).1,
    hlen,
    ((Main_fileName_base sampleKeeper sampleKeeper [] [] []).2.2 _ hlen).1⟩

/-- C17 as stated fails on a path of 260 characters: 252 letters x, a
backslash and "all.exe". `GetModuleFileNameA` returns `MAX_PATH`, the first
pass is skipped and the device tag stays Primary, while `ParseMode` on
"all.exe" gives the device tag All. -/
theorem Main_fileName_base_counterexample :
    backslash ∉ "all.exe".toList ∧
    Main_fileName sampleKeeper
      (some (List.replicate 252 'x' ++ backslash :: "all.exe".toList)) =
      Except.ok sampleKeeper ∧
    sampleKeeper.deviceType = KeepDeviceType.Primary ∧
    ∃ r, ParseMode sampleKeeper "all.exe".toList = Except.ok r ∧
      r.deviceType = KeepDeviceType.All := by
  have hlen : ¬ (List.replicate 252 'x' ++ backslash :: "all.exe".toList).length < MAX_PATH := by
    rw [List.length_append, List.length_replicate]
    decide
  refine ⟨by decide, ?_, rfl, ?_⟩
  · unfold Main_fileName GetModuleFileNameA
    dsimp only
    rw [if_neg hlen]
    dsimp only
    rw [if_neg (fun h => h.2 rfl)]
  · refine ⟨_, ParseMode_eq sampleKeeper "all.exe".toList (by decide), ?_⟩
    rw [streamStep_deviceType, deviceStep_deviceType, if_neg (by decide), if_neg (by decide),
      if_neg (by decide), if_pos (by decide)]

end SoundKeeper
